import Mathlib

/-!
Shallow embedding of the ggkstac repository (a WFS → GeoParquet → STAC
catalog builder) and verification of its specification claims.

Conventions used throughout:
* Python `min(seq)` / `max(seq)` and pandas reductions are modelled by
  `py_min` / `py_max` (left folds of `min` / `max` over a list).
* numpy float64 coordinates are modelled as exact rationals: the source
  only applies `min` / `max` to them, which is exact on floating point
  values (no rounding is involved).
* `datetime` values are modelled as integer microseconds since the epoch;
  timezone localization (`pytz.timezone("Europe/Warsaw").localize` followed
  by `astimezone(UTC)`) is modelled by an explicit offset function, a
  parameter standing for the external timezone database.
* Fallible Python code (raised exceptions) is modelled with `Option` /
  `Except`.
-/

deriving instance DecidableEq for Except

namespace GgkStac

/-! ### Python-style helpers -/

/-- Python `min(seq)` (`None` on an empty sequence, which raises in Python).
Python's `min` keeps the first minimal element, exactly as `min` does for a
`LinearOrder`. -/
def py_min {α : Type} [LinearOrder α] : List α → Option α
  | [] => none
  | x :: xs => some (xs.foldl min x)

/-- Python `max(seq)` (`None` on an empty sequence, which raises in Python). -/
def py_max {α : Type} [LinearOrder α] : List α → Option α
  | [] => none
  | x :: xs => some (xs.foldl max x)

/-- pandas `Series.unique()`: distinct values in order of first appearance. -/
def py_unique {α : Type} [DecidableEq α] (l : List α) : List α :=
  l.foldl (fun acc x => if x ∈ acc then acc else acc ++ [x]) []

/-- Python's `<` on strings, viewed as lists of code points: strict
lexicographic comparison (executable; proven below to coincide with the
lexicographic `LinearOrder` on `String`). -/
def chars_lt : List Char → List Char → Bool
  | _, [] => false
  | [], _ :: _ => true
  | a :: as, b :: bs =>
    if a < b then true else if b < a then false else chars_lt as bs

/-- Python's `a < b` on strings. -/
def str_lt (a b : String) : Bool := chars_lt a.toList b.toList

/-- Python `min` over strings (pandas string reductions compare the same
way): keep the accumulator unless the next element is strictly smaller. -/
def py_str_min : List String → Option String
  | [] => none
  | x :: xs => some (xs.foldl (fun acc s => if str_lt s acc then s else acc) x)

/-- Python `max` over strings. -/
def py_str_max : List String → Option String
  | [] => none
  | x :: xs => some (xs.foldl (fun acc s => if str_lt acc s then s else acc) x)

/-! ### Bounding boxes and `calculate_extent`'s spatial part
(src/ggkstac/ortho/parsing.py, `calculate_extent`, via
`GeoDataFrame.total_bounds`) -/

/-- An axis-aligned bounding box, as in the `total_bounds` computation. -/
structure BBox where
  xmin : Rat
  ymin : Rat
  xmax : Rat
  ymax : Rat
deriving DecidableEq, Repr

/-- Combination of two boxes: component-wise min of the lower corner and
max of the upper corner.  This is the binary fold step performed by
`GeoDataFrame.total_bounds` over per-feature bounds. -/
def bbox_union (a b : BBox) : BBox :=
  ⟨min a.xmin b.xmin, min a.ymin b.ymin, max a.xmax b.xmax, max a.ymax b.ymax⟩

/-- `gdf.total_bounds`: the combined bounds of all feature boxes (`none`
models the NaN result on an empty frame). -/
def total_bounds : List BBox → Option BBox
  | [] => none
  | b :: bs => some (bs.foldl bbox_union b)

/-- `outer` covers `inner`: every point of `inner` lies inside `outer`. -/
def bbox_covers (outer inner : BBox) : Prop :=
  outer.xmin ≤ inner.xmin ∧ outer.ymin ≤ inner.ymin ∧
    inner.xmax ≤ outer.xmax ∧ inner.ymax ≤ outer.ymax

instance (a b : BBox) : Decidable (bbox_covers a b) := by
  unfold bbox_covers
  infer_instance

/-! ### The Page Walker
(src/ggkstac/ortho/download.py, `download_and_parse_layer` and its inner
`_go_through_pages`) -/

/-- One HTTP request issued by the walker: a URL plus optional WFS query
parameters (`params=None` on cursor requests). -/
structure Request where
  url : String
  params : Option (List (String × String))
deriving DecidableEq, Repr

/-- `WFS_BASE_URL` from src/ggkstac/ortho/const.py. -/
def WFS_BASE_URL : String :=
  "https://mapy.geoportal.gov.pl/wss/service/PZGIK/ORTO/WFS/Skorowidze"

/-- The query parameters built at the top of `download_and_parse_layer`. -/
def wfs_params (layer_id : String) (page_size : Nat) : List (String × String) :=
  [("SERVICE", "WFS"), ("VERSION", "2.0.0"), ("REQUEST", "GetFeature"),
   ("SRSNAME", "EPSG:4326"), ("TYPENAME", layer_id), ("COUNT", toString page_size)]

/-- The initial request of `download_and_parse_layer`. -/
def initial_request (layer_id : String) (page_size : Nat) : Request :=
  ⟨WFS_BASE_URL, some (wfs_params layer_id page_size)⟩

/-- Python truthiness of the extracted `next` attribute: both a missing
`wfs:FeatureCollection` element (`None`) and an empty attribute value
(`""`, what `getAttribute` returns when absent) terminate the walk. -/
def cursor_present : Option String → Bool
  | none => false
  | some s => !s.isEmpty

/-- `_go_through_pages`: fetch `req`, keep its payload, and if the response
carries a (truthy) continuation cursor, recurse on that cursor verbatim with
`params = None`.  The server (transport + cursor-extraction collaborators)
is a function from a request to the page payload and the optional cursor.
The result records, in order, every `(request, payload)` pair fetched.
`fuel` bounds the recursion depth (the Python recursion is unbounded; any
`fuel` larger than the chain length gives the Python behaviour). -/
def go_through_pages {α : Type} (server : Request → α × Option String) :
    Nat → Request → Option (List (Request × α))
  | 0, _ => none
  | fuel + 1, req =>
    match server req with
    | (payload, next) =>
      if cursor_present next then
        match next with
        | some nxt =>
          (go_through_pages server fuel ⟨nxt, none⟩).map
            (fun rest => (req, payload) :: rest)
        | none => some [(req, payload)]
      else
        some [(req, payload)]

/-- `download_and_parse_layer` restricted to its fetch behaviour: walk the
pages starting from the initial WFS request.  (The concatenation of page
payloads into one dataframe is external formatting; the ordered payload list
is the second projection of the returned trace.) -/
def download_and_parse_layer {α : Type} (server : Request → α × Option String)
    (fuel : Nat) (layer_id : String) (page_size : Nat := 20000) :
    Option (List (Request × α)) :=
  go_through_pages server fuel (initial_request layer_id page_size)

/-- Specification of a finite server-side cursor chain starting at `req`:
the first page has payload `p`; `rest` lists the remaining pages as
`(cursor, payload)` pairs, each cursor nonempty, and the final page carries
no (truthy) cursor. -/
def ChainFrom {α : Type} (server : Request → α × Option String) :
    Request → α → List (String × α) → Prop
  | req, p, [] => (server req).1 = p ∧ cursor_present (server req).2 = false
  | req, p, (c, q) :: rest =>
    server req = (p, some c) ∧ c.isEmpty = false ∧ ChainFrom server ⟨c, none⟩ q rest

/-- The fetch trace a chain induces: the initial request paired with the
first payload, then one cursor request (`params = None`) per chain link. -/
def chain_trace {α : Type} : Request → α → List (String × α) → List (Request × α)
  | req, p, [] => [(req, p)]
  | req, p, (c, q) :: rest => (req, p) :: chain_trace ⟨c, none⟩ q rest

/-! ### The Retrying Fetcher (src/ggkstac/utils.py, `download`) -/

/-- The failure classes an attempt can raise, following the `httpx`
exception taxonomy used in the source's `except` clause.  `other` covers
every exception outside that clause (e.g. file-system errors). -/
inductive HttpErr : Type
  | connectionReset
  | timeout
  | streamError
  | transportOther
  | httpStatus (code : Nat)
  | other (tag : String)
deriving DecidableEq, Repr

/-- The exception classes caught (hence retried) by `_dl`'s `except` clause:
`httpx.ReadError`, `httpx.StreamError`, `httpx.TransportError`,
`httpx.TimeoutException` and `httpx.HTTPStatusError`.  Note that
`response.raise_for_status()` raises `HTTPStatusError` for every
non-success status, 4xx and 5xx alike, and the clause catches all of them. -/
def caught : HttpErr → Bool
  | HttpErr.connectionReset => true
  | HttpErr.timeout => true
  | HttpErr.streamError => true
  | HttpErr.transportOther => true
  | HttpErr.httpStatus _ => true
  | HttpErr.other _ => false

/-- The spec's declared transient set, stated in its own words for
comparison with `caught` ("connection reset, timeout, 5xx-class status,
transport-level stream errors"). -/
def declared_transient : HttpErr → Bool
  | HttpErr.connectionReset => true
  | HttpErr.timeout => true
  | HttpErr.streamError => true
  | HttpErr.transportOther => true
  | HttpErr.httpStatus code => 500 ≤ code && code ≤ 599
  | HttpErr.other _ => false

/-- Outcome of `download`: the byte count on success; the exhaustion
exception (with its message and the `from e` cause) when the attempt budget
runs out; or an uncaught exception propagating immediately. -/
inductive DownloadResult : Type
  | ok (size_in_bytes : Nat)
  | exhausted (last_cause : HttpErr) (message : String)
  | fatal (e : HttpErr)
deriving DecidableEq, Repr

/-- The message of the exhaustion exception:
`"Could not download file: {file_path} from {url} with params {params}"`. -/
def exhausted_message (file_path url params_repr : String) : String :=
  "Could not download file: " ++ file_path ++ " from " ++ url ++
    " with params " ++ params_repr

/-- `max_tries = 20` in `download`. -/
def max_tries : Nat := 20

/-- `_dl(try_number)`: run the attempt; on success return the byte count;
on a caught exception either raise the exhaustion error (when
`try_number >= max_tries`) or retry with `try_number + 1`; any other
exception propagates uncaught.  `attempts` maps each try number to that
attempt's outcome. -/
def dl_from (attempts : Nat → Except HttpErr Nat)
    (file_path url params_repr : String) (try_number : Nat) : DownloadResult :=
  match attempts try_number with
  | Except.ok n => DownloadResult.ok n
  | Except.error e =>
    if caught e then
      if h : max_tries ≤ try_number then
        DownloadResult.exhausted e (exhausted_message file_path url params_repr)
      else
        dl_from attempts file_path url params_repr (try_number + 1)
    else
      DownloadResult.fatal e
termination_by max_tries + 1 - try_number
decreasing_by omega

/-- `download`: start `_dl` at `try_number = 1`. -/
def download (attempts : Nat → Except HttpErr Nat)
    (file_path url params_repr : String) : DownloadResult :=
  dl_from attempts file_path url params_repr 1

/-! ### Dates and `calculate_extent`'s temporal part
(src/ggkstac/ortho/parsing.py, `calculate_extent`) -/

def microseconds_per_day : Int := 86400000000

def days_in_month (y m : Int) : Int :=
  if m = 2 then (if (y % 4 = 0 ∧ y % 100 ≠ 0) ∨ y % 400 = 0 then 29 else 28)
  else if m = 4 ∨ m = 6 ∨ m = 9 ∨ m = 11 then 30 else 31

/-- Days since 1970-01-01 of a civil date (the standard civil-calendar
conversion underlying `datetime.date`). -/
def days_from_civil (y m d : Int) : Int :=
  let y2 := if m ≤ 2 then y - 1 else y
  let era := (if 0 ≤ y2 then y2 else y2 - 399) / 400
  let yoe := y2 - era * 400
  let mp := (m + 9) % 12
  let doy := (153 * mp + 2) / 5 + d - 1
  let doe := yoe * 365 + yoe / 4 - yoe / 100 + doy
  era * 146097 + doe - 719468

def digit_val (c : Char) : Int := (c.toNat : Int) - 48

/-- `datetime.fromisoformat` restricted to the `YYYY-MM-DD` date strings
carried by the WFS `timePosition` attribute; the result is the naive
timestamp of that date's midnight, in microseconds since the epoch. -/
def fromisoformat_date (s : String) : Option Int :=
  match s.toList with
  | [c1, c2, c3, c4, c5, c6, c7, c8, c9, c10] =>
    if c1.isDigit && c2.isDigit && c3.isDigit && c4.isDigit && c5 == '-' &&
        c6.isDigit && c7.isDigit && c8 == '-' && c9.isDigit && c10.isDigit then
      let y := 1000 * digit_val c1 + 100 * digit_val c2 + 10 * digit_val c3 + digit_val c4
      let m := 10 * digit_val c6 + digit_val c7
      let d := 10 * digit_val c9 + digit_val c10
      if 1 ≤ m ∧ m ≤ 12 ∧ 1 ≤ d ∧ d ≤ days_in_month y m then
        some (days_from_civil y m d * microseconds_per_day)
      else none
    else none
  | _ => none

/-- `tz.localize(naive).astimezone(UTC)`: subtract the Europe/Warsaw UTC
offset of the naive wall-clock time.  `off` gives that offset in
microseconds and stands for the external `pytz` timezone database. -/
def localize_to_utc (off : Int → Int) (naive : Int) : Int := naive - off naive

/-- The columns of one WFS feature row read by the verified code.
`bounds` is the bounding box of the feature's geometry (what
`gdf.total_bounds` folds over). -/
structure Feature where
  gml_id : String
  timePosition : String
  akt_rok : Int
  bounds : BBox
  zrodlo_danych : String
  godlo : String
  kolor : String
deriving DecidableEq, Repr

/-- The extent dictionary produced by `calculate_extent`: one spatial box
and one `[start, end]` temporal interval (UTC microseconds; the ISO
rendering of these instants is external serialization). -/
structure Extent where
  bbox : BBox
  interval_start : Int
  interval_end : Int
deriving DecidableEq, Repr

/-- `calculate_extent`: spatial part from `gdf.total_bounds`; temporal part
from the min/max of the `timePosition` column, the max shifted by
`timedelta(days=1, microseconds=-1)` before localization, both localized to
Europe/Warsaw and converted to UTC.  `none` models the exceptions raised on
an empty frame or unparseable dates. -/
def calculate_extent (off : Int → Int) (gdf : List Feature) : Option Extent := do
  let tb ← total_bounds (gdf.map Feature.bounds)
  let min_s ← py_str_min (gdf.map Feature.timePosition)
  let max_s ← py_str_max (gdf.map Feature.timePosition)
  let min_naive ← fromisoformat_date min_s
  let max_naive ← fromisoformat_date max_s
  pure ⟨tb, localize_to_utc off min_naive,
        localize_to_utc off (max_naive + (microseconds_per_day - 1))⟩

/-! ### Catalog composition
(src/ggkstac/ortho/parsing.py `features_as_items`, `get_main_collection`,
`geoparquet_to_collection`; src/ggkstac/catalog.py `get_main_catalog`;
src/ggkstac/cli.py `convert_geoparquet_files`) -/

structure Link where
  rel : String
  href : String
  title : Option String
deriving DecidableEq, Repr

def ID_CATALOG : String := "poland.gugik"

def ID_COLLECTION_ORTHO : String := ID_CATALOG ++ ".ortho"

/-- `ID_SUBCOLLECTION_ORTHO_TEMPLATE.format(year=year)`. -/
def subcollection_id_of (year : String) : String := ID_COLLECTION_ORTHO ++ "." ++ year

/-- The item title built in `features_as_items`. -/
def feature_title (f : Feature) : String :=
  f.zrodlo_danych ++ ": " ++ f.godlo ++ " - " ++ f.timePosition ++ " - " ++ f.kolor

/-- The link-relevant projection of one STAC item from `features_as_items`. -/
structure Item where
  id : String
  title : String
  collection : String
  links : List Link
deriving DecidableEq, Repr

/-- `features_as_items`: one item per feature, in order, each with exactly
a `root` and a `parent` link. -/
def features_as_items (features : List Feature) (collection_id : String) : List Item :=
  features.map fun f =>
    ⟨f.gml_id, feature_title f, collection_id,
     [⟨"root", "../../catalog.json", none⟩, ⟨"parent", "./collection.json", none⟩]⟩

structure SubCollection where
  id : String
  title : String
  description : String
  extent : Extent
  links : List Link
deriving DecidableEq, Repr

/-- The links of a sub-collection: `root`, `parent`, then one `item` link
per item in creation order, titled with the item's title. -/
def subcollection_links (items : List Item) : List Link :=
  ⟨"root", "../../catalog.json", none⟩ :: ⟨"parent", "../collection.json", none⟩ ::
    items.map fun i => ⟨"item", "./" ++ i.id ++ ".json", some i.title⟩

/-- The sub-collection assembly shared by both year branches of
`geoparquet_to_collection`: derive the id from the year label, build the
items and wire the sub-collection's links. -/
def build_subcollection (gdf : List Feature) (extent : Extent)
    (collection_year description : String) : SubCollection × List Item :=
  let collection_id := subcollection_id_of collection_year
  let items := features_as_items gdf collection_id
  (⟨collection_id, collection_year, description, extent, subcollection_links items⟩,
   items)

/-- `geoparquet_to_collection`: compute the extent (this runs first, so its
failure pre-empts the year check), derive the year label from the distinct
`akt_rok` values, build the items and the sub-collection.  `Except.error`
models the exceptions raised along the way. -/
def geoparquet_to_collection (off : Int → Int) (gdf : List Feature) :
    Except String (SubCollection × List Item) :=
  match calculate_extent off gdf with
  | none => Except.error "error while computing extent"
  | some extent =>
    match py_unique (gdf.map Feature.akt_rok) with
    | [y] =>
      Except.ok (build_subcollection gdf extent (toString y)
        ("Arkusze ortofotomapy z roku: " ++ toString y))
    | y1 :: y2 :: ys =>
      let year_min := (y2 :: ys).foldl min y1
      let year_max := (y2 :: ys).foldl max y1
      let cy := toString year_min ++ "-" ++ toString year_max
      Except.ok (build_subcollection gdf extent cy
        ("Arkusze ortofotomapy z lat: " ++ cy))
    | [] => Except.error "Could not find year in layer features in akt_rok column."

def MAIN_COLLECTION_TITLE : String := "Ortofotomapy"

/-- The links of the main ortho collection as built by
`get_main_collection`: only a `root` link. -/
def get_main_collection_links : List Link := [⟨"root", "../catalog.json", none⟩]

/-- The links of the root catalog as built by `get_main_catalog`. -/
def get_main_catalog_links : List Link := [⟨"root", "./catalog.json", none⟩]

/-- The link-relevant result of `convert_geoparquet_files`. -/
structure ConvertedCatalog where
  catalog_links : List Link
  ortho_links : List Link
  subcollections : List (SubCollection × List Item)
deriving DecidableEq, Repr

/-- The node-assembly part of `convert_geoparquet_files`: append one
`child` link for the ortho collection to the catalog, then process every
input file in order, appending one `child` link per sub-collection to the
ortho collection. -/
def convert_geoparquet_nodes (off : Int → Int) (gdfs : List (List Feature)) :
    Except String ConvertedCatalog := do
  let subs ← gdfs.mapM (geoparquet_to_collection off)
  Except.ok
    { catalog_links :=
        get_main_catalog_links ++
          [⟨"child", "./" ++ ID_COLLECTION_ORTHO ++ "/collection.json",
            some MAIN_COLLECTION_TITLE⟩],
      ortho_links :=
        get_main_collection_links ++
          subs.map fun sc =>
            ⟨"child", "./" ++ sc.1.id ++ "/collection.json", some sc.1.title⟩,
      subcollections := subs }

/-- An element of the mixed-type Python list
`ortho_collection["extent"]["temporal"]["interval"]`: either a plain string
(as appended during the loop) or a list of strings (the covering interval
inserted at position 0). -/
inductive TemporalEntry : Type
  | str (s : String)
  | interval (xs : List String)
deriving DecidableEq, Repr

/-- The temporal-extent assembly of `convert_geoparquet_files` (cli.py
lines 53 and 66-68), applied to the per-file values of
`sub_collection["extent"]["temporal"]["interval"]` (each a `[start, end]`
list of ISO strings): append `interval[0]` for every file, flatten the
accumulated list (Python iteration over a `str` yields its characters),
take `min`/`max` of the flattened values, and insert the resulting
two-element list at position 0.  `none` models the exceptions raised on
empty input. -/
def ortho_temporal_assembly (child_intervals : List (List String)) :
    Option (List TemporalEntry) := do
  let appended ← child_intervals.mapM List.head?
  let interval_values := (appended.map String.toList).flatten
  let mn ← py_min interval_values
  let mx ← py_max interval_values
  pure (TemporalEntry.interval [mn.toString, mx.toString] ::
    appended.map TemporalEntry.str)

/-! ### Output-folder preparation
(src/ggkstac/cli.py, `convert_geoparquet_files`, `output_dir` handling) -/

/-- A filesystem path as a list of components. -/
abbrev FPath := List String

/-- A filesystem as the list of paths of its entries. -/
abbrev FileSystem := List FPath

/-- `p` is `q` or an ancestor of `q`. -/
def fpath_le (p q : FPath) : Bool := decide (q.take p.length = p)

def fs_exists (fs : FileSystem) (p : FPath) : Bool := decide (p ∈ fs)

/-- `next(p.iterdir(), None)` is truthy: some entry lies strictly below `p`. -/
def fs_nonempty_dir (fs : FileSystem) (p : FPath) : Bool :=
  fs.any fun q => fpath_le p q && !(decide (q = p))

/-- `shutil.rmtree(p)`: remove `p` and everything beneath it. -/
def fs_rmtree (fs : FileSystem) (p : FPath) : FileSystem :=
  fs.filter fun q => !(fpath_le p q)

/-- `p.mkdir()` (the parent is assumed to exist). -/
def fs_mkdir (fs : FileSystem) (p : FPath) : FileSystem := fs ++ [p]

/-- The nonempty prefixes of `p`, shortest first. -/
def fpath_ancestors (p : FPath) : List FPath :=
  (List.range p.length).map fun i => p.take (i + 1)

/-- `p.mkdir(parents=True)`: create `p` together with any missing ancestor. -/
def fs_mkdir_parents (fs : FileSystem) (p : FPath) : FileSystem :=
  fs ++ (fpath_ancestors p).filter fun q => !(decide (q ∈ fs))

/-- The output-folder preparation of `convert_geoparquet_files`: an
existing non-empty folder is removed recursively and recreated empty; an
existing empty folder is left untouched; a missing folder is created with
parents. -/
def prepare_output_dir (fs : FileSystem) (output_dir : FPath) : FileSystem :=
  if fs_exists fs output_dir then
    if fs_nonempty_dir fs output_dir then
      fs_mkdir (fs_rmtree fs output_dir) output_dir
    else fs
  else fs_mkdir_parents fs output_dir

/-! ### The Concurrency-Bounded Dispatcher
(src/ggkstac/ortho/download.py, `download_and_save_to_geoparquet`):
`asyncio.Semaphore(max_workers)` plus `asyncio.gather` over one worker task
per layer id.  Modelled as a small-step transition system over the joint
state of the semaphore counter, the worker tasks and the pending `gather`
result; the nondeterministic step relation subsumes every event-loop
schedule. -/

/-- The phase of one worker task: not yet past `async with semaphore`;
holding the semaphore with `m` steps of its body (download + save) left;
or finished, semaphore released, with its result. -/
inductive Phase (E : Type) : Type
  | waiting
  | working (remaining : Nat)
  | done (r : Except E String)

/-- `file_path = folder / f"{layer_id}.parquet"`. -/
def worker_file_path (folder layer_id : String) : String :=
  folder ++ "/" ++ layer_id ++ ".parquet"

/-- The result of one worker invocation: the saved file path, or the
exception raised by its body (`download_and_parse_layer` / `to_parquet`). -/
def worker_result {E : Type} (folder layer_id : String) (body : Except E Unit) :
    Except E String :=
  match body with
  | Except.ok _ => Except.ok (worker_file_path folder layer_id)
  | Except.error e => Except.error e

/-- `asyncio.gather` bookkeeping: the first exception raised by a finished
task is the one gather propagates; later exceptions do not replace it. -/
def merge_first_error {E : Type} (cur : Option E) (body : Except E Unit) : Option E :=
  match cur, body with
  | none, Except.error e => some e
  | c, _ => c

structure DispatchState (n : Nat) (E : Type) where
  sem : Nat
  phases : Fin n → Phase E
  firstError : Option E
  result : Option (Except E (List String))

/-- When all tasks finished successfully, the ordered result list gather
returns (position `i` holds task `i`'s result). -/
def collect_ok {n : Nat} {E : Type} (phases : Fin n → Phase E) : Option (List String) :=
  (List.ofFn phases).mapM fun ph =>
    match ph with
    | Phase.done (Except.ok s) => some s
    | _ => none

/-- One event-loop step: a waiting task acquires the semaphore when its
counter is positive; a running task advances or finishes (releasing the
semaphore and recording its result — and, on an exception, the first
error); gather delivers the first raised exception as soon as it exists
(without touching the other tasks), or the ordered result list once every
task has finished successfully. -/
inductive DispatchStep {n : Nat} {E : Type} (folder : String)
    (layers : Fin n → String) (job : Fin n → Nat) (body : Fin n → Except E Unit) :
    DispatchState n E → DispatchState n E → Prop
  | acquire (s : DispatchState n E) (i : Fin n)
      (hw : s.phases i = Phase.waiting) (hs : 0 < s.sem) :
      DispatchStep folder layers job body s
        ⟨s.sem - 1, Function.update s.phases i (Phase.working (job i)),
         s.firstError, s.result⟩
  | work (s : DispatchState n E) (i : Fin n) (m : Nat)
      (hw : s.phases i = Phase.working (m + 1)) :
      DispatchStep folder layers job body s
        ⟨s.sem, Function.update s.phases i (Phase.working m), s.firstError, s.result⟩
  | finish (s : DispatchState n E) (i : Fin n)
      (hw : s.phases i = Phase.working 0) :
      DispatchStep folder layers job body s
        ⟨s.sem + 1,
         Function.update s.phases i
           (Phase.done (worker_result folder (layers i) (body i))),
         merge_first_error s.firstError (body i), s.result⟩
  | gatherFail (s : DispatchState n E) (e : E)
      (hr : s.result = none) (he : s.firstError = some e) :
      DispatchStep folder layers job body s
        ⟨s.sem, s.phases, s.firstError, some (Except.error e)⟩
  | gatherOk (s : DispatchState n E) (rs : List String)
      (hr : s.result = none) (hc : collect_ok s.phases = some rs) :
      DispatchStep folder layers job body s
        ⟨s.sem, s.phases, s.firstError, some (Except.ok rs)⟩

/-- Initial state: the semaphore holds `max_workers` permits; gather has
scheduled every task eagerly and each waits at the semaphore. -/
def dispatch_init (n : Nat) (E : Type) (max_workers : Nat) : DispatchState n E :=
  ⟨max_workers, fun _ => Phase.waiting, none, none⟩

def phase_is_working {E : Type} : Phase E → Bool
  | Phase.working _ => true
  | _ => false

/-- How many worker invocations are executing (inside the semaphore). -/
def working_count {n : Nat} {E : Type} (s : DispatchState n E) : Nat :=
  ∑ i : Fin n, (if phase_is_working (s.phases i) then 1 else 0)

/-- Remaining-progress measure of one task, used to show that every task
can always run to completion. -/
def phase_weight {E : Type} (j : Nat) : Phase E → Nat
  | Phase.waiting => j + 2
  | Phase.working m => m + 1
  | Phase.done _ => 0

def remaining_work {n : Nat} {E : Type} (job : Fin n → Nat)
    (s : DispatchState n E) : Nat :=
  ∑ i : Fin n, phase_weight (job i) (s.phases i)

/-- The inductive invariant of the dispatcher's transition system: the
semaphore counter plus the number of executing workers equals
`max_workers`; finished tasks hold exactly their worker's result; a
recorded first error comes from a finished failing worker; a delivered
error result matches the recorded first error; and a delivered success
result is the collected, input-ordered result list. -/
def DispatchInv {n : Nat} {E : Type} (folder : String) (layers : Fin n → String)
    (body : Fin n → Except E Unit) (k : Nat) (s : DispatchState n E) : Prop :=
  s.sem + working_count s = k ∧
  (∀ (i : Fin n) (r : Except E String),
    s.phases i = Phase.done r → r = worker_result folder (layers i) (body i)) ∧
  (∀ e : E, s.firstError = some e →
    ∃ i : Fin n, s.phases i = Phase.done (Except.error e) ∧ body i = Except.error e) ∧
  (∀ e : E, s.result = some (Except.error e) → s.firstError = some e) ∧
  (∀ rs : List String, s.result = some (Except.ok rs) → collect_ok s.phases = some rs)

/-- Concrete one-task instance for the dispatcher witnesses. -/
def c3_layers : Fin 1 → String := fun _ => "layer.a"

def c3_job : Fin 1 → Nat := fun _ => 0

def c3_body : Fin 1 → Except String Unit := fun _ => Except.ok ()

/-- Concrete instance for the dispatcher counterexample: two layers, the
first worker's body raises, the second succeeds. -/
def c4_layers : Fin 2 → String := fun i => if i = 0 then "layer.a" else "layer.b"

def c4_job : Fin 2 → Nat := fun _ => 0

def c4_body : Fin 2 → Except String Unit :=
  fun i => if i = 0 then Except.error "boom" else Except.ok ()

/-- The state reached after: task 0 acquires, task 0 finishes with an
exception, gather delivers that exception — while task 1 still waits. -/
def c4_final : DispatchState 2 String :=
  ⟨2, Function.update (Function.update (fun _ => Phase.waiting) 0 (Phase.working 0)) 0
        (Phase.done (Except.error "boom")),
   some "boom", some (Except.error "boom")⟩

/-! ### Concrete instances used by witnesses and counterexamples -/

/-- A two-page server: the base URL answers with payload `10` and a cursor,
the cursor URL answers with payload `20` and no cursor. -/
def c1_server : Request → Nat × Option String := fun req =>
  if req.url = "https://example.com/page2" then (20, none)
  else (10, some "https://example.com/page2")

/-- Attempts for the C2 counterexample: the first attempt raises
`HTTPStatusError` with a 4xx status, the second succeeds. -/
def c2_attempts : Nat → Except HttpErr Nat :=
  fun t => if t = 1 then Except.error (HttpErr.httpStatus 404) else Except.ok 7

/-- Attempts for the C2 witness: one transient timeout, then success. -/
def c2w_attempts : Nat → Except HttpErr Nat :=
  fun t => if t = 1 then Except.error HttpErr.timeout else Except.ok 5

/-- A constant UTC offset of two hours, standing in for the Europe/Warsaw
offset at the dates of the concrete features below. -/
def const_offset : Int → Int := fun _ => 7200000000

def feature_a : Feature :=
  ⟨"item.a", "2020-05-31", 2020, ⟨0, 0, 1, 1⟩, "src", "M-34", "RGB"⟩

def feature_b : Feature :=
  ⟨"item.b", "2021-06-01", 2021, ⟨2, 2, 3, 3⟩, "src", "M-35", "RGB"⟩

/-- Sub-collection extent intervals (as ISO strings) fed to the temporal
assembly in the C6 evaluation. -/
def c6_interval_a : List String :=
  ["2020-05-31T22:00:00+00:00", "2021-06-01T21:59:59.999999+00:00"]

def c6_interval_b : List String :=
  ["2021-05-31T22:00:00+00:00", "2022-06-01T21:59:59.999999+00:00"]

/-- The catalog produced by `convert_geoparquet_nodes` on the single-file
input `[[feature_a]]` (extracted from the successful run). -/
def c9_value : ConvertedCatalog :=
  (convert_geoparquet_nodes const_offset [[feature_a]]).toOption.getD ⟨[], [], []⟩

/-! ## Theorems -/

/-! ### Folded minima and maxima -/

theorem foldl_min_le_init {α : Type} [LinearOrder α] (l : List α) (a : α) :
    l.foldl min a ≤ a := by
  induction l generalizing a with
  | nil => exact le_refl a
  | cons x xs ih => exact le_trans (ih (min a x)) (min_le_left a x)

theorem foldl_min_le_mem {α : Type} [LinearOrder α] (l : List α) (a : α) :
    ∀ x ∈ l, l.foldl min a ≤ x := by
  induction l generalizing a with
  | nil => intro x hx; cases hx
  | cons y ys ih =>
    intro x hx
    cases hx with
    | head => exact le_trans (foldl_min_le_init ys (min a y)) (min_le_right a y)
    | tail _ hmem => exact ih (min a y) x hmem

theorem foldl_min_mem {α : Type} [LinearOrder α] (l : List α) (a : α) :
    l.foldl min a = a ∨ l.foldl min a ∈ l := by
  induction l generalizing a with
  | nil => exact Or.inl rfl
  | cons y ys ih =>
    rcases ih (min a y) with h | h
    · rcases min_choice a y with hm | hm
      · exact Or.inl (by rw [List.foldl_cons, h, hm])
      · refine Or.inr ?_
        rw [List.foldl_cons, h, hm]
        exact List.mem_cons_self y ys
    · exact Or.inr (List.mem_cons_of_mem y h)

theorem foldl_max_init_le {α : Type} [LinearOrder α] (l : List α) (a : α) :
    a ≤ l.foldl max a := by
  induction l generalizing a with
  | nil => exact le_refl a
  | cons x xs ih => exact le_trans (le_max_left a x) (ih (max a x))

theorem foldl_max_mem_le {α : Type} [LinearOrder α] (l : List α) (a : α) :
    ∀ x ∈ l, x ≤ l.foldl max a := by
  induction l generalizing a with
  | nil => intro x hx; cases hx
  | cons y ys ih =>
    intro x hx
    cases hx with
    | head => exact le_trans (le_max_right a y) (foldl_max_init_le ys (max a y))
    | tail _ hmem => exact ih (max a y) x hmem

theorem foldl_max_mem {α : Type} [LinearOrder α] (l : List α) (a : α) :
    l.foldl max a = a ∨ l.foldl max a ∈ l := by
  induction l generalizing a with
  | nil => exact Or.inl rfl
  | cons y ys ih =>
    rcases ih (max a y) with h | h
    · rcases max_choice a y with hm | hm
      · exact Or.inl (by rw [List.foldl_cons, h, hm])
      · refine Or.inr ?_
        rw [List.foldl_cons, h, hm]
        exact List.mem_cons_self y ys
    · exact Or.inr (List.mem_cons_of_mem y h)

theorem py_min_spec {α : Type} [LinearOrder α] {l : List α} {m : α}
    (h : py_min l = some m) : m ∈ l ∧ ∀ x ∈ l, m ≤ x := by
  cases l with
  | nil => simp [py_min] at h
  | cons x xs =>
    have hm : xs.foldl min x = m := by simpa [py_min] using h
    subst hm
    refine ⟨?_, ?_⟩
    · rcases foldl_min_mem xs x with h0 | h0
      · rw [h0]; exact List.mem_cons_self x xs
      · exact List.mem_cons_of_mem x h0
    · intro z hz
      cases hz with
      | head => exact foldl_min_le_init xs x
      | tail _ hmem => exact foldl_min_le_mem xs x z hmem

theorem py_max_spec {α : Type} [LinearOrder α] {l : List α} {m : α}
    (h : py_max l = some m) : m ∈ l ∧ ∀ x ∈ l, x ≤ m := by
  cases l with
  | nil => simp [py_max] at h
  | cons x xs =>
    have hm : xs.foldl max x = m := by simpa [py_max] using h
    subst hm
    refine ⟨?_, ?_⟩
    · rcases foldl_max_mem xs x with h0 | h0
      · rw [h0]; exact List.mem_cons_self x xs
      · exact List.mem_cons_of_mem x h0
    · intro z hz
      cases hz with
      | head => exact foldl_max_init_le xs x
      | tail _ hmem => exact foldl_max_mem_le xs x z hmem

theorem py_min_perm {α : Type} [LinearOrder α] {l₁ l₂ : List α} (h : l₁.Perm l₂) :
    py_min l₁ = py_min l₂ := by
  cases l₁ with
  | nil =>
    have : l₂ = [] := h.symm.eq_nil
    rw [this]
  | cons x xs =>
    cases l₂ with
    | nil => exact absurd h.eq_nil (by simp)
    | cons y ys =>
      have h₁ : py_min (x :: xs) = some (xs.foldl min x) := rfl
      have h₂ : py_min (y :: ys) = some (ys.foldl min y) := rfl
      obtain ⟨hm₁, hb₁⟩ := py_min_spec h₁
      obtain ⟨hm₂, hb₂⟩ := py_min_spec h₂
      rw [h₁, h₂]
      exact congrArg some (le_antisymm (hb₁ _ (h.mem_iff.mpr hm₂)) (hb₂ _ (h.mem_iff.mp hm₁)))

theorem py_max_perm {α : Type} [LinearOrder α] {l₁ l₂ : List α} (h : l₁.Perm l₂) :
    py_max l₁ = py_max l₂ := by
  cases l₁ with
  | nil =>
    have : l₂ = [] := h.symm.eq_nil
    rw [this]
  | cons x xs =>
    cases l₂ with
    | nil => exact absurd h.eq_nil (by simp)
    | cons y ys =>
      have h₁ : py_max (x :: xs) = some (xs.foldl max x) := rfl
      have h₂ : py_max (y :: ys) = some (ys.foldl max y) := rfl
      obtain ⟨hm₁, hb₁⟩ := py_max_spec h₁
      obtain ⟨hm₂, hb₂⟩ := py_max_spec h₂
      rw [h₁, h₂]
      exact congrArg some (le_antisymm (hb₂ _ (h.mem_iff.mp hm₁)) (hb₁ _ (h.mem_iff.mpr hm₂)))

/-! ### Bounding-box combination (claim C5) -/

theorem bbox_covers_refl (a : BBox) : bbox_covers a a :=
  ⟨le_refl _, le_refl _, le_refl _, le_refl _⟩

theorem bbox_covers_trans {a b c : BBox} (h₁ : bbox_covers a b) (h₂ : bbox_covers b c) :
    bbox_covers a c :=
  ⟨le_trans h₁.1 h₂.1, le_trans h₁.2.1 h₂.2.1,
   le_trans h₂.2.2.1 h₁.2.2.1, le_trans h₂.2.2.2 h₁.2.2.2⟩

theorem bbox_union_covers_left (a b : BBox) : bbox_covers (bbox_union a b) a :=
  ⟨min_le_left _ _, min_le_left _ _, le_max_left _ _, le_max_left _ _⟩

theorem bbox_union_covers_right (a b : BBox) : bbox_covers (bbox_union a b) b :=
  ⟨min_le_right _ _, min_le_right _ _, le_max_right _ _, le_max_right _ _⟩

theorem bbox_union_least {a b c : BBox} (ha : bbox_covers c a) (hb : bbox_covers c b) :
    bbox_covers c (bbox_union a b) :=
  ⟨le_min ha.1 hb.1, le_min ha.2.1 hb.2.1,
   max_le ha.2.2.1 hb.2.2.1, max_le ha.2.2.2 hb.2.2.2⟩

theorem foldl_bbox_union_covers (l : List BBox) (b : BBox) :
    bbox_covers (l.foldl bbox_union b) b ∧
      ∀ c ∈ l, bbox_covers (l.foldl bbox_union b) c := by
  induction l generalizing b with
  | nil => exact ⟨bbox_covers_refl b, fun c hc => absurd hc (List.not_mem_nil c)⟩
  | cons x xs ih =>
    obtain ⟨h1, h2⟩ := ih (bbox_union b x)
    refine ⟨bbox_covers_trans h1 (bbox_union_covers_left b x), ?_⟩
    intro c hc
    cases hc with
    | head => exact bbox_covers_trans h1 (bbox_union_covers_right b x)
    | tail _ hmem => exact h2 c hmem

theorem foldl_bbox_union_least (l : List BBox) (b c : BBox)
    (hb : bbox_covers c b) (hl : ∀ x ∈ l, bbox_covers c x) :
    bbox_covers c (l.foldl bbox_union b) := by
  induction l generalizing b with
  | nil => exact hb
  | cons x xs ih =>
    exact ih (bbox_union b x)
      (bbox_union_least hb (hl x (List.mem_cons_self x xs)))
      (fun z hz => hl z (List.mem_cons_of_mem x hz))

theorem foldl_bbox_union_xmin (l : List BBox) (b : BBox) :
    (l.foldl bbox_union b).xmin = (l.map BBox.xmin).foldl min b.xmin := by
  induction l generalizing b with
  | nil => rfl
  | cons x xs ih => exact ih (bbox_union b x)

theorem foldl_bbox_union_ymin (l : List BBox) (b : BBox) :
    (l.foldl bbox_union b).ymin = (l.map BBox.ymin).foldl min b.ymin := by
  induction l generalizing b with
  | nil => rfl
  | cons x xs ih => exact ih (bbox_union b x)

theorem foldl_bbox_union_xmax (l : List BBox) (b : BBox) :
    (l.foldl bbox_union b).xmax = (l.map BBox.xmax).foldl max b.xmax := by
  induction l generalizing b with
  | nil => rfl
  | cons x xs ih => exact ih (bbox_union b x)

theorem foldl_bbox_union_ymax (l : List BBox) (b : BBox) :
    (l.foldl bbox_union b).ymax = (l.map BBox.ymax).foldl max b.ymax := by
  induction l generalizing b with
  | nil => rfl
  | cons x xs ih => exact ih (bbox_union b x)

theorem total_bounds_components {l : List BBox} {u : BBox} (h : total_bounds l = some u) :
    py_min (l.map BBox.xmin) = some u.xmin ∧ py_min (l.map BBox.ymin) = some u.ymin ∧
      py_max (l.map BBox.xmax) = some u.xmax ∧ py_max (l.map BBox.ymax) = some u.ymax := by
  cases l with
  | nil => simp [total_bounds] at h
  | cons b bs =>
    have hu : bs.foldl bbox_union b = u := by simpa [total_bounds] using h
    subst hu
    refine ⟨?_, ?_, ?_, ?_⟩
    · rw [foldl_bbox_union_xmin]; rfl
    · rw [foldl_bbox_union_ymin]; rfl
    · rw [foldl_bbox_union_xmax]; rfl
    · rw [foldl_bbox_union_ymax]; rfl

/-- **C5**: the spatial combination (`total_bounds`, folding `bbox_union`)
returns the box of component-wise minima of `xmin`/`ymin` and maxima of
`xmax`/`ymax` — the smallest axis-aligned box covering every input box; on
a single box it is the identity; `bbox_union` is associative and
commutative, and the combination is invariant under permutation of its
inputs (order and grouping do not matter). -/
theorem C5_spatial_combine :
    (∀ (l : List BBox) (u : BBox), total_bounds l = some u →
      (py_min (l.map BBox.xmin) = some u.xmin ∧
       py_min (l.map BBox.ymin) = some u.ymin ∧
       py_max (l.map BBox.xmax) = some u.xmax ∧
       py_max (l.map BBox.ymax) = some u.ymax) ∧
      (∀ b ∈ l, bbox_covers u b) ∧
      (∀ c : BBox, (∀ b ∈ l, bbox_covers c b) → bbox_covers c u)) ∧
    (∀ b : BBox, total_bounds [b] = some b) ∧
    (∀ a b c : BBox, bbox_union (bbox_union a b) c = bbox_union a (bbox_union b c)) ∧
    (∀ a b : BBox, bbox_union a b = bbox_union b a) ∧
    (∀ l₁ l₂ : List BBox, l₁.Perm l₂ → total_bounds l₁ = total_bounds l₂) := by
  refine ⟨?_, ?_, ?_, ?_, ?_⟩
  · intro l u hu
    refine ⟨total_bounds_components hu, ?_, ?_⟩
    · cases l with
      | nil => simp [total_bounds] at hu
      | cons b bs =>
        have h : bs.foldl bbox_union b = u := by simpa [total_bounds] using hu
        subst h
        intro c hc
        obtain ⟨h1, h2⟩ := foldl_bbox_union_covers bs b
        cases hc with
        | head => exact h1
        | tail _ hmem => exact h2 c hmem
    · cases l with
      | nil => simp [total_bounds] at hu
      | cons b bs =>
        have h : bs.foldl bbox_union b = u := by simpa [total_bounds] using hu
        subst h
        intro c hc
        exact foldl_bbox_union_least bs b c (hc b (List.mem_cons_self b bs))
          (fun z hz => hc z (List.mem_cons_of_mem b hz))
  · intro b; rfl
  · intro a b c
    simp only [bbox_union, min_assoc, max_assoc]
  · intro a b
    simp only [bbox_union, min_comm b.xmin a.xmin, min_comm b.ymin a.ymin,
      max_comm b.xmax a.xmax, max_comm b.ymax a.ymax]
  · intro l₁ l₂ hperm
    cases l₁ with
    | nil =>
      have : l₂ = [] := hperm.symm.eq_nil
      rw [this]
    | cons x xs =>
      cases l₂ with
      | nil => exact absurd hperm.eq_nil (by simp)
      | cons y ys =>
        obtain ⟨ha1, ha2, ha3, ha4⟩ :=
          total_bounds_components (l := x :: xs) (u := xs.foldl bbox_union x) rfl
        obtain ⟨hb1, hb2, hb3, hb4⟩ :=
          total_bounds_components (l := y :: ys) (u := ys.foldl bbox_union y) rfl
        have e1 : (xs.foldl bbox_union x).xmin = (ys.foldl bbox_union y).xmin :=
          Option.some.inj ((ha1.symm.trans (py_min_perm (hperm.map BBox.xmin))).trans hb1)
        have e2 : (xs.foldl bbox_union x).ymin = (ys.foldl bbox_union y).ymin :=
          Option.some.inj ((ha2.symm.trans (py_min_perm (hperm.map BBox.ymin))).trans hb2)
        have e3 : (xs.foldl bbox_union x).xmax = (ys.foldl bbox_union y).xmax :=
          Option.some.inj ((ha3.symm.trans (py_max_perm (hperm.map BBox.xmax))).trans hb3)
        have e4 : (xs.foldl bbox_union x).ymax = (ys.foldl bbox_union y).ymax :=
          Option.some.inj ((ha4.symm.trans (py_max_perm (hperm.map BBox.ymax))).trans hb4)
        show some (xs.foldl bbox_union x) = some (ys.foldl bbox_union y)
        refine congrArg some ?_
        cases hx : xs.foldl bbox_union x with
        | mk x1 y1 x2 y2 =>
          cases hy : ys.foldl bbox_union y with
          | mk x1' y1' x2' y2' =>
            rw [hx, hy] at e1 e2 e3 e4
            simp only [BBox.mk.injEq]
            exact ⟨e1, e2, e3, e4⟩

/-- Witness for C5: the theorem instantiated on the singleton input
`[⟨1, 2, 3, 4⟩]`. -/
theorem C5_spatial_combine_witness :
    (py_min ([(⟨1, 2, 3, 4⟩ : BBox)].map BBox.xmin) = some (⟨1, 2, 3, 4⟩ : BBox).xmin ∧
     py_min ([(⟨1, 2, 3, 4⟩ : BBox)].map BBox.ymin) = some (⟨1, 2, 3, 4⟩ : BBox).ymin ∧
     py_max ([(⟨1, 2, 3, 4⟩ : BBox)].map BBox.xmax) = some (⟨1, 2, 3, 4⟩ : BBox).xmax ∧
     py_max ([(⟨1, 2, 3, 4⟩ : BBox)].map BBox.ymax) = some (⟨1, 2, 3, 4⟩ : BBox).ymax) ∧
    (∀ b ∈ [(⟨1, 2, 3, 4⟩ : BBox)], bbox_covers ⟨1, 2, 3, 4⟩ b) ∧
    (∀ c : BBox, (∀ b ∈ [(⟨1, 2, 3, 4⟩ : BBox)], bbox_covers c b) →
      bbox_covers c ⟨1, 2, 3, 4⟩) :=
  C5_spatial_combine.1 [⟨1, 2, 3, 4⟩] ⟨1, 2, 3, 4⟩ rfl

/-! ### The Page Walker (claim C1) -/

theorem chain_trace_map_fst {α : Type} (rest : List (String × α)) :
    ∀ (req : Request) (p : α),
      (chain_trace req p rest).map Prod.fst =
        req :: rest.map (fun cq => (⟨cq.1, none⟩ : Request)) := by
  induction rest with
  | nil => intro req p; rfl
  | cons cq rest ih =>
    intro req p
    obtain ⟨c, q⟩ := cq
    simp only [chain_trace, List.map_cons]
    rw [ih ⟨c, none⟩ q]

theorem chain_trace_map_snd {α : Type} (rest : List (String × α)) :
    ∀ (req : Request) (p : α),
      (chain_trace req p rest).map Prod.snd = p :: rest.map Prod.snd := by
  induction rest with
  | nil => intro req p; rfl
  | cons cq rest ih =>
    intro req p
    obtain ⟨c, q⟩ := cq
    simp only [chain_trace, List.map_cons]
    rw [ih ⟨c, none⟩ q]

theorem go_through_pages_chain {α : Type} (server : Request → α × Option String)
    (rest : List (String × α)) :
    ∀ (req : Request) (p : α) (fuel : Nat), rest.length + 1 ≤ fuel →
      ChainFrom server req p rest →
      go_through_pages server fuel req = some (chain_trace req p rest) := by
  induction rest with
  | nil =>
    intro req p fuel hf hc
    obtain ⟨h1, h2⟩ := hc
    cases fuel with
    | zero => omega
    | succ f =>
      rcases hs : server req with ⟨p', nx⟩
      rw [hs] at h1 h2
      simp only at h1 h2
      subst h1
      simp [go_through_pages, hs, h2, chain_trace]
  | cons cq rest ih =>
    intro req p fuel hf hc
    obtain ⟨c, q⟩ := cq
    obtain ⟨hs, hne, hrest⟩ := hc
    cases fuel with
    | zero => simp at hf
    | succ f =>
      have hrec := ih ⟨c, none⟩ q f (by simp at hf ⊢; omega) hrest
      simp [go_through_pages, hs, cursor_present, hne, hrec, chain_trace]

/-- **C1**: for every finite chain of server responses whose cursors end in
`None`, `download_and_parse_layer` issues the initial request with the full
WFS query parameters, then one request per cursor — each addressed to the
cursor value verbatim with `params = None` — fetching each of the chain's
pages exactly once (the trace has exactly one entry per page, in chain
order) and returning the payloads in chain order. -/
theorem C1_page_walker {α : Type} (server : Request → α × Option String)
    (layer_id : String) (page_size : Nat) (p : α) (rest : List (String × α))
    (fuel : Nat) (hfuel : rest.length + 1 ≤ fuel)
    (hchain : ChainFrom server (initial_request layer_id page_size) p rest) :
    download_and_parse_layer server fuel layer_id page_size =
        some (chain_trace (initial_request layer_id page_size) p rest) ∧
    (chain_trace (initial_request layer_id page_size) p rest).map Prod.fst =
      initial_request layer_id page_size ::
        rest.map (fun cq => (⟨cq.1, none⟩ : Request)) ∧
    (chain_trace (initial_request layer_id page_size) p rest).map Prod.snd =
      p :: rest.map Prod.snd := by
  refine ⟨?_, chain_trace_map_fst rest _ p, chain_trace_map_snd rest _ p⟩
  exact go_through_pages_chain server rest (initial_request layer_id page_size)
    p fuel hfuel hchain

/-- Witness for C1: a concrete two-page chain served by `c1_server`. -/
theorem C1_page_walker_witness :
    download_and_parse_layer c1_server 2 "layer" 20000 =
        some (chain_trace (initial_request "layer" 20000) 10
          [("https://example.com/page2", 20)]) ∧
    (chain_trace (initial_request "layer" 20000) 10
        [("https://example.com/page2", 20)]).map Prod.fst =
      initial_request "layer" 20000 ::
        [("https://example.com/page2", (20 : Nat))].map
          (fun cq => (⟨cq.1, none⟩ : Request)) ∧
    (chain_trace (initial_request "layer" 20000) 10
        [("https://example.com/page2", 20)]).map Prod.snd =
      10 :: [("https://example.com/page2", (20 : Nat))].map Prod.snd :=
  C1_page_walker c1_server "layer" 20000 10 [("https://example.com/page2", 20)] 2
    (by decide) ⟨by decide, by decide, by decide, by decide⟩

/-! ### The Retrying Fetcher (claim C2) -/

theorem dl_from_skip (attempts : Nat → Except HttpErr Nat) (fp url pr : String)
    (t : Nat) (e : HttpErr) (ht : t < max_tries)
    (he : attempts t = Except.error e) (hc : caught e = true) :
    dl_from attempts fp url pr t = dl_from attempts fp url pr (t + 1) := by
  conv_lhs => rw [dl_from]
  rw [he]
  simp only [hc, if_true]
  rw [dif_neg (by omega : ¬ max_tries ≤ t)]

theorem dl_reach (attempts : Nat → Except HttpErr Nat) (fp url pr : String) :
    ∀ (t : Nat), 1 ≤ t → t ≤ max_tries →
      (∀ u, 1 ≤ u → u < t → ∃ e, attempts u = Except.error e ∧ caught e = true) →
      download attempts fp url pr = dl_from attempts fp url pr t := by
  intro t
  induction t with
  | zero => intro h; omega
  | succ t ih =>
    intro h1 h2 hr
    cases Nat.eq_or_lt_of_le h1 with
    | inl heq => rw [← heq]; rfl
    | inr hlt =>
      obtain ⟨e, he, hc⟩ := hr t (by omega) (by omega)
      rw [ih (by omega) (by omega) (fun u hu1 hu2 => hr u hu1 (by omega))]
      exact dl_from_skip attempts fp url pr t e (by omega) he hc

/-- **C2 amended**: `download` retries exactly on the caught exception
classes — connection/transport errors, timeouts, stream errors, and *any*
non-success HTTP status (4xx as well as 5xx); any other exception
propagates immediately without a retry; a success after caught failures
returns the byte count; and when all `max_tries = 20` attempts fail with
caught exceptions, it fails with the exhaustion error carrying the last
cause and the request description, returning no partial result. -/
theorem C2_download_retry_policy (attempts : Nat → Except HttpErr Nat)
    (fp url pr : String) :
    (∀ t e, 1 ≤ t → t ≤ max_tries →
      (∀ u, 1 ≤ u → u < t → ∃ e', attempts u = Except.error e' ∧ caught e' = true) →
      attempts t = Except.error e → caught e = false →
      download attempts fp url pr = DownloadResult.fatal e) ∧
    (∀ t n, 1 ≤ t → t ≤ max_tries →
      (∀ u, 1 ≤ u → u < t → ∃ e', attempts u = Except.error e' ∧ caught e' = true) →
      attempts t = Except.ok n →
      download attempts fp url pr = DownloadResult.ok n) ∧
    (∀ e,
      (∀ u, 1 ≤ u → u < max_tries → ∃ e', attempts u = Except.error e' ∧ caught e' = true) →
      attempts max_tries = Except.error e → caught e = true →
      download attempts fp url pr =
        DownloadResult.exhausted e (exhausted_message fp url pr)) := by
  refine ⟨?_, ?_, ?_⟩
  · intro t e h1 h2 hreach hat hcf
    rw [dl_reach attempts fp url pr t h1 h2 hreach]
    rw [dl_from, hat]
    simp [hcf]
  · intro t n h1 h2 hreach hat
    rw [dl_reach attempts fp url pr t h1 h2 hreach]
    rw [dl_from, hat]
  · intro e hreach hat hc
    rw [dl_reach attempts fp url pr max_tries (by decide) le_rfl hreach]
    rw [dl_from, hat]
    simp [hc]

/-- Witness for the amended C2: a timeout on attempt 1, success on
attempt 2. -/
theorem C2_download_retry_policy_witness :
    download c2w_attempts "file.xml" "https://host/wfs" "params" =
      DownloadResult.ok 5 :=
  (C2_download_retry_policy c2w_attempts "file.xml" "https://host/wfs" "params").2.1 2 5
    (by omega) (by decide)
    (fun u hu1 hu2 => by
      have hu : u = 1 := by omega
      subst hu
      exact ⟨HttpErr.timeout, rfl, rfl⟩)
    rfl

/-- **C2 counterexample**: a 404 response (`HTTPStatusError` with a
4xx status) is not in the spec's declared transient set, yet `download`
retries it — the second attempt succeeds and the call returns `ok`,
instead of propagating the error immediately as the claim requires. -/
theorem C2_counterexample :
    caught (HttpErr.httpStatus 404) = true ∧
    declared_transient (HttpErr.httpStatus 404) = false ∧
    c2_attempts 1 = Except.error (HttpErr.httpStatus 404) ∧
    download c2_attempts "file.xml" "https://host/wfs" "params" =
      DownloadResult.ok 7 ∧
    download c2_attempts "file.xml" "https://host/wfs" "params" ≠
      DownloadResult.fatal (HttpErr.httpStatus 404) := by
  have h2 : download c2_attempts "file.xml" "https://host/wfs" "params" =
      dl_from c2_attempts "file.xml" "https://host/wfs" "params" 2 :=
    dl_from_skip c2_attempts "file.xml" "https://host/wfs" "params" 1
      (HttpErr.httpStatus 404) (by decide) rfl rfl
  have h3 : dl_from c2_attempts "file.xml" "https://host/wfs" "params" 2 =
      DownloadResult.ok 7 := by
    rw [dl_from]
    rfl
  refine ⟨rfl, rfl, rfl, h2.trans h3, ?_⟩
  rw [h2.trans h3]
  exact fun hcontra => DownloadResult.noConfusion hcontra

/-! ### The executable string order agrees with the lexicographic order -/

theorem chars_lt_iff (l₁ l₂ : List Char) : chars_lt l₁ l₂ = true ↔ l₁ < l₂ := by
  induction l₁ generalizing l₂ with
  | nil =>
    cases l₂ with
    | nil =>
      constructor
      · intro h; exact Bool.noConfusion h
      · intro h; exact absurd h nofun
    | cons b bs =>
      constructor
      · intro _; exact List.Lex.nil
      · intro _; rfl
  | cons a as ih =>
    cases l₂ with
    | nil =>
      constructor
      · intro h; exact Bool.noConfusion h
      · intro h; exact absurd h nofun
    | cons b bs =>
      show (if a < b then true else if b < a then false else chars_lt as bs) = true ↔ _
      by_cases h1 : a < b
      · rw [if_pos h1]
        constructor
        · intro _; exact List.Lex.rel h1
        · intro _; rfl
      · rw [if_neg h1]
        by_cases h2 : b < a
        · rw [if_pos h2]
          constructor
          · intro h; exact Bool.noConfusion h
          · intro h
            cases h with
            | cons h' => exact absurd h2 (lt_irrefl _)
            | rel h' => exact absurd h' h1
        · rw [if_neg h2]
          have heq : a = b := le_antisymm (le_of_not_lt h2) (le_of_not_lt h1)
          subst heq
          rw [ih bs]
          constructor
          · intro h; exact List.Lex.cons h
          · intro h
            cases h with
            | cons h' => exact h'
            | rel h' => exact absurd h' h1

theorem str_lt_iff (a b : String) : str_lt a b = true ↔ a < b := by
  rw [str_lt, chars_lt_iff, String.lt_iff_toList_lt]

theorem py_str_min_eq (l : List String) : py_str_min l = py_min l := by
  have hfun : (fun acc s => if str_lt s acc then s else acc) =
      fun acc s : String => min acc s := by
    funext acc s
    by_cases h : str_lt s acc = true
    · rw [if_pos h, min_def, if_neg (not_le_of_lt ((str_lt_iff s acc).mp h))]
    · have hle : acc ≤ s :=
        le_of_not_lt (fun hlt : s < acc => h ((str_lt_iff s acc).mpr hlt))
      rw [if_neg h, min_def, if_pos hle]
  cases l with
  | nil => rfl
  | cons x xs =>
    simp only [py_str_min, py_min, hfun]

theorem py_str_max_eq (l : List String) : py_str_max l = py_max l := by
  have hfun : (fun acc s => if str_lt acc s then s else acc) =
      fun acc s : String => max acc s := by
    funext acc s
    by_cases h : str_lt acc s = true
    · rw [if_pos h, max_def, if_pos (le_of_lt ((str_lt_iff acc s).mp h))]
    · have hsle : s ≤ acc :=
        le_of_not_lt (fun hlt : acc < s => h ((str_lt_iff acc s).mpr hlt))
      rw [if_neg h, max_def]
      by_cases h2 : acc ≤ s
      · rw [if_pos h2]
        exact le_antisymm h2 hsle
      · rw [if_neg h2]
  cases l with
  | nil => rfl
  | cons x xs =>
    simp only [py_str_max, py_max, hfun]

/-! ### Temporal extent of a sub-collection (claim C7) -/

/-- **C7**: for every feature set on which `calculate_extent` succeeds, the
temporal extent treats each item's interval as a whole-day bucket anchored
at its instant: the start is the minimum `timePosition`, the end is the
maximum `timePosition` plus one day minus one microsecond (added to the
naive timestamp), and each endpoint is timezone-localized (the `off`
offset, standing for Europe/Warsaw) before conversion to UTC. -/
theorem C7_calculate_extent_temporal (off : Int → Int) (gdf : List Feature)
    (ext : Extent) (h : calculate_extent off gdf = some ext) :
    ∃ mn mx : String,
      mn ∈ gdf.map Feature.timePosition ∧
      (∀ t ∈ gdf.map Feature.timePosition, mn ≤ t) ∧
      mx ∈ gdf.map Feature.timePosition ∧
      (∀ t ∈ gdf.map Feature.timePosition, t ≤ mx) ∧
      ∃ dmn dmx : Int,
        fromisoformat_date mn = some dmn ∧ fromisoformat_date mx = some dmx ∧
        ext.interval_start = localize_to_utc off dmn ∧
        ext.interval_end = localize_to_utc off (dmx + (microseconds_per_day - 1)) := by
  simp only [calculate_extent, Option.bind_eq_bind, Option.bind_eq_some, Option.pure_def,
    Option.some.injEq] at h
  obtain ⟨tb, htb, mns, hmns, mxs, hmxs, dmn, hdmn, dmx, hdmx, hext⟩ := h
  rw [py_str_min_eq] at hmns
  rw [py_str_max_eq] at hmxs
  obtain ⟨hmem₁, hbound₁⟩ := py_min_spec hmns
  obtain ⟨hmem₂, hbound₂⟩ := py_max_spec hmxs
  refine ⟨mns, mxs, hmem₁, hbound₁, hmem₂, hbound₂, dmn, dmx, hdmn, hdmx, ?_, ?_⟩
  · rw [← hext]
  · rw [← hext]

/-- Witness for C7: two features dated 2020-05-31 and 2021-06-01 with a
constant two-hour offset. -/
theorem C7_calculate_extent_temporal_witness :
    ∃ mn mx : String,
      mn ∈ [feature_a, feature_b].map Feature.timePosition ∧
      (∀ t ∈ [feature_a, feature_b].map Feature.timePosition, mn ≤ t) ∧
      mx ∈ [feature_a, feature_b].map Feature.timePosition ∧
      (∀ t ∈ [feature_a, feature_b].map Feature.timePosition, t ≤ mx) ∧
      ∃ dmn dmx : Int,
        fromisoformat_date mn = some dmn ∧ fromisoformat_date mx = some dmx ∧
        (⟨⟨0, 0, 3, 3⟩, 1590876000000000, 1622584799999999⟩ : Extent).interval_start =
          localize_to_utc const_offset dmn ∧
        (⟨⟨0, 0, 3, 3⟩, 1590876000000000, 1622584799999999⟩ : Extent).interval_end =
          localize_to_utc const_offset (dmx + (microseconds_per_day - 1)) :=
  C7_calculate_extent_temporal const_offset [feature_a, feature_b]
    ⟨⟨0, 0, 3, 3⟩, 1590876000000000, 1622584799999999⟩ (by decide)

/-! ### Year partition of a sub-collection (claim C8) -/

theorem py_unique_mem {α : Type} [DecidableEq α] (l : List α) (x : α) :
    x ∈ py_unique l ↔ x ∈ l := by
  have main : ∀ (l acc : List α),
      (x ∈ l.foldl (fun acc y => if y ∈ acc then acc else acc ++ [y]) acc ↔
        x ∈ acc ∨ x ∈ l) := by
    intro l
    induction l with
    | nil => intro acc; simp
    | cons y ys ih =>
      intro acc
      rw [List.foldl_cons, ih]
      by_cases hy : y ∈ acc
      · simp only [hy, if_true, List.mem_cons]
        constructor
        · rintro (h | h)
          · exact Or.inl h
          · exact Or.inr (Or.inr h)
        · rintro (h | h | h)
          · exact Or.inl h
          · exact Or.inl (h ▸ hy)
          · exact Or.inr h
      · simp only [hy, if_false, List.mem_append, List.mem_singleton, List.mem_cons]
        tauto
  exact (main l []).trans (by simp)

/-- **C8**: `geoparquet_to_collection` partitions on the distinct values of
the per-record `akt_rok` attribute: exactly one distinct year makes the
label, id suffix and description name that single year; more than one makes
the label the range `min-max` over the years and the description a range
text; zero distinct values (an empty record set) fails fatally — the
failure surfacing from the extent computation, which runs first. -/
theorem C8_year_partition (off : Int → Int) (gdf : List Feature) :
    (∀ (y : Int) (e : Extent),
      py_unique (gdf.map Feature.akt_rok) = [y] →
      calculate_extent off gdf = some e →
      ∃ (sc : SubCollection) (items : List Item),
        geoparquet_to_collection off gdf = Except.ok (sc, items) ∧
        sc.title = toString y ∧
        sc.id = subcollection_id_of (toString y) ∧
        sc.description = "Arkusze ortofotomapy z roku: " ++ toString y) ∧
    (∀ (y1 y2 : Int) (ys : List Int) (e : Extent),
      py_unique (gdf.map Feature.akt_rok) = y1 :: y2 :: ys →
      calculate_extent off gdf = some e →
      ∃ (mn mx : Int) (sc : SubCollection) (items : List Item),
        mn ∈ gdf.map Feature.akt_rok ∧
        (∀ a ∈ gdf.map Feature.akt_rok, mn ≤ a) ∧
        mx ∈ gdf.map Feature.akt_rok ∧
        (∀ a ∈ gdf.map Feature.akt_rok, a ≤ mx) ∧
        geoparquet_to_collection off gdf = Except.ok (sc, items) ∧
        sc.title = toString mn ++ "-" ++ toString mx ∧
        sc.id = subcollection_id_of (toString mn ++ "-" ++ toString mx) ∧
        sc.description =
          "Arkusze ortofotomapy z lat: " ++ (toString mn ++ "-" ++ toString mx)) ∧
    (gdf = [] → geoparquet_to_collection off gdf =
      Except.error "error while computing extent") := by
  refine ⟨?_, ?_, ?_⟩
  · intro y e hyu hext
    refine ⟨(build_subcollection gdf e (toString y)
        ("Arkusze ortofotomapy z roku: " ++ toString y)).1,
      (build_subcollection gdf e (toString y)
        ("Arkusze ortofotomapy z roku: " ++ toString y)).2, ?_, rfl, rfl, rfl⟩
    simp only [geoparquet_to_collection, hext, hyu]
  · intro y1 y2 ys e hyu hext
    have hmin : py_min (y1 :: y2 :: ys) = some ((y2 :: ys).foldl min y1) := rfl
    have hmax : py_max (y1 :: y2 :: ys) = some ((y2 :: ys).foldl max y1) := rfl
    obtain ⟨hmem₁, hbound₁⟩ := py_min_spec hmin
    obtain ⟨hmem₂, hbound₂⟩ := py_max_spec hmax
    rw [← hyu] at hmem₁ hbound₁ hmem₂ hbound₂
    refine ⟨(y2 :: ys).foldl min y1, (y2 :: ys).foldl max y1,
      (build_subcollection gdf e
        (toString ((y2 :: ys).foldl min y1) ++ "-" ++ toString ((y2 :: ys).foldl max y1))
        ("Arkusze ortofotomapy z lat: " ++
          (toString ((y2 :: ys).foldl min y1) ++ "-" ++
            toString ((y2 :: ys).foldl max y1)))).1,
      (build_subcollection gdf e
        (toString ((y2 :: ys).foldl min y1) ++ "-" ++ toString ((y2 :: ys).foldl max y1))
        ("Arkusze ortofotomapy z lat: " ++
          (toString ((y2 :: ys).foldl min y1) ++ "-" ++
            toString ((y2 :: ys).foldl max y1)))).2,
      (py_unique_mem _ _).mp hmem₁,
      (fun a ha => hbound₁ a ((py_unique_mem _ _).mpr ha)),
      (py_unique_mem _ _).mp hmem₂,
      (fun a ha => hbound₂ a ((py_unique_mem _ _).mpr ha)), ?_, rfl, rfl, rfl⟩
    simp only [geoparquet_to_collection, hext, hyu]
  · intro hnil
    subst hnil
    rfl

/-- Witness for C8: two features with distinct years 2020 and 2021. -/
theorem C8_year_partition_witness :
    ∃ (mn mx : Int) (sc : SubCollection) (items : List Item),
      mn ∈ [feature_a, feature_b].map Feature.akt_rok ∧
      (∀ a ∈ [feature_a, feature_b].map Feature.akt_rok, mn ≤ a) ∧
      mx ∈ [feature_a, feature_b].map Feature.akt_rok ∧
      (∀ a ∈ [feature_a, feature_b].map Feature.akt_rok, a ≤ mx) ∧
      geoparquet_to_collection const_offset [feature_a, feature_b] =
        Except.ok (sc, items) ∧
      sc.title = toString mn ++ "-" ++ toString mx ∧
      sc.id = subcollection_id_of (toString mn ++ "-" ++ toString mx) ∧
      sc.description =
        "Arkusze ortofotomapy z lat: " ++ (toString mn ++ "-" ++ toString mx) :=
  (C8_year_partition const_offset [feature_a, feature_b]).2.1 2020 2021 []
    ⟨⟨0, 0, 3, 3⟩, 1590876000000000, 1622584799999999⟩ (by decide) (by decide)

/-! ### Catalog link wiring (claim C9) -/

theorem except_ok_bind {ε α β : Type} (a : α) (f : α → Except ε β) :
    (Except.ok a >>= f) = f a := rfl

theorem except_error_bind {ε α β : Type} (e : ε) (f : α → Except ε β) :
    ((Except.error e : Except ε α) >>= f) = Except.error e := rfl

theorem except_mapM_ok_mem {α β : Type} (g : α → Except String β) :
    ∀ (l : List α) (out : List β), l.mapM g = Except.ok out →
      ∀ b ∈ out, ∃ a ∈ l, g a = Except.ok b := by
  intro l
  induction l with
  | nil =>
    intro out h b hb
    simp only [List.mapM_nil] at h
    injection h with h
    subst h
    cases hb
  | cons x xs ih =>
    intro out h b hb
    rw [List.mapM_cons] at h
    cases hgx : g x with
    | error e =>
      rw [hgx, except_error_bind] at h
      exact Except.noConfusion h
    | ok y =>
      rw [hgx, except_ok_bind] at h
      cases hxs : xs.mapM g with
      | error e =>
        rw [hxs, except_error_bind] at h
        exact Except.noConfusion h
      | ok ys =>
        rw [hxs, except_ok_bind] at h
        injection h with h
        subst h
        cases hb with
        | head => exact ⟨x, List.mem_cons_self x xs, hgx⟩
        | tail _ hmem =>
          obtain ⟨a, ha, hga⟩ := ih ys hxs b hmem
          exact ⟨a, List.mem_cons_of_mem x ha, hga⟩

/-- Inversion of `geoparquet_to_collection`: a successful result's items
are exactly `features_as_items` of the input and the sub-collection's links
are `subcollection_links` of those items. -/
theorem geoparquet_to_collection_shape (off : Int → Int) (gdf : List Feature)
    (sub : SubCollection) (items : List Item)
    (h : geoparquet_to_collection off gdf = Except.ok (sub, items)) :
    items = features_as_items gdf sub.id ∧ sub.links = subcollection_links items := by
  unfold geoparquet_to_collection at h
  cases hce : calculate_extent off gdf with
  | none => rw [hce] at h; exact Except.noConfusion h
  | some e =>
    rw [hce] at h
    rcases hyu : py_unique (gdf.map Feature.akt_rok) with _ | ⟨y1, _ | ⟨y2, ys⟩⟩
    · rw [hyu] at h
      exact Except.noConfusion h
    · rw [hyu] at h
      injection h with h
      simp only [build_subcollection, Prod.mk.injEq] at h
      obtain ⟨hsub, hitems⟩ := h
      subst hsub
      subst hitems
      exact ⟨rfl, rfl⟩
    · rw [hyu] at h
      injection h with h
      simp only [build_subcollection, Prod.mk.injEq] at h
      obtain ⟨hsub, hitems⟩ := h
      subst hsub
      subst hitems
      exact ⟨rfl, rfl⟩

theorem subcollection_links_counts (items : List Item) :
    (subcollection_links items).countP (fun l => l.rel == "root") = 1 ∧
    (subcollection_links items).countP (fun l => l.rel == "parent") = 1 ∧
    (subcollection_links items).filter (fun l => l.rel == "item") =
      items.map (fun i => ⟨"item", "./" ++ i.id ++ ".json", some i.title⟩) := by
  unfold subcollection_links
  have hz1 : List.countP ((fun l => l.rel == "root") ∘ fun i : Item =>
      (⟨"item", "./" ++ i.id ++ ".json", some i.title⟩ : Link)) items = 0 :=
    List.countP_eq_zero.mpr (fun i _ => by
      show ¬ (("item" : String) == "root") = true
      decide)
  have hz2 : List.countP ((fun l => l.rel == "parent") ∘ fun i : Item =>
      (⟨"item", "./" ++ i.id ++ ".json", some i.title⟩ : Link)) items = 0 :=
    List.countP_eq_zero.mpr (fun i _ => by
      show ¬ (("item" : String) == "parent") = true
      decide)
  have hall : List.filter ((fun l => l.rel == "item") ∘ fun i : Item =>
      (⟨"item", "./" ++ i.id ++ ".json", some i.title⟩ : Link)) items = items :=
    List.filter_eq_self.mpr (fun i _ => by
      show (("item" : String) == "item") = true
      decide)
  refine ⟨?_, ?_, ?_⟩
  · rw [List.countP_cons, List.countP_cons, List.countP_map, hz1]
    decide
  · rw [List.countP_cons, List.countP_cons, List.countP_map, hz2]
    decide
  · rw [List.filter_cons, List.filter_cons, List.filter_map]
    rw [if_neg (by decide), if_neg (by decide), hall]

theorem features_as_items_links (gdf : List Feature) (cid : String) :
    ∀ it ∈ features_as_items gdf cid,
      it.links.countP (fun l => l.rel == "root") = 1 ∧
      it.links.countP (fun l => l.rel == "parent") = 1 := by
  intro it hit
  unfold features_as_items at hit
  obtain ⟨f, _, rfl⟩ := List.mem_map.mp hit
  constructor
  · show List.countP (fun l : Link => l.rel == "root")
      ([⟨"root", "../../catalog.json", none⟩,
        ⟨"parent", "./collection.json", none⟩] : List Link) = 1
    decide
  · show List.countP (fun l : Link => l.rel == "parent")
      ([⟨"root", "../../catalog.json", none⟩,
        ⟨"parent", "./collection.json", none⟩] : List Link) = 1
    decide

/-- **C9 amended**: in the assembled tree, every node carries exactly one
`root` link; sub-collections and items also carry exactly one `parent`
link, but the top-level ortho collection carries *no* parent link (the
code never adds one); every composite node's `child`/`item` links
enumerate exactly its direct children in creation order. -/
theorem C9_links (off : Int → Int) (gdfs : List (List Feature))
    (c : ConvertedCatalog)
    (h : convert_geoparquet_nodes off gdfs = Except.ok c) :
    (c.catalog_links.countP (fun l => l.rel == "root") = 1 ∧
     c.catalog_links.countP (fun l => l.rel == "parent") = 0 ∧
     c.catalog_links.filter (fun l => l.rel == "child") =
       [⟨"child", "./" ++ ID_COLLECTION_ORTHO ++ "/collection.json",
         some MAIN_COLLECTION_TITLE⟩]) ∧
    (c.ortho_links.countP (fun l => l.rel == "root") = 1 ∧
     c.ortho_links.countP (fun l => l.rel == "parent") = 0 ∧
     c.ortho_links.filter (fun l => l.rel == "child") =
       c.subcollections.map (fun sc =>
         ⟨"child", "./" ++ sc.1.id ++ "/collection.json", some sc.1.title⟩)) ∧
    (∀ sc ∈ c.subcollections,
      sc.1.links.countP (fun l => l.rel == "root") = 1 ∧
      sc.1.links.countP (fun l => l.rel == "parent") = 1 ∧
      sc.1.links.filter (fun l => l.rel == "item") =
        sc.2.map (fun i => ⟨"item", "./" ++ i.id ++ ".json", some i.title⟩) ∧
      ∀ it ∈ sc.2,
        it.links.countP (fun l => l.rel == "root") = 1 ∧
        it.links.countP (fun l => l.rel == "parent") = 1) := by
  unfold convert_geoparquet_nodes at h
  cases hsubs : gdfs.mapM (geoparquet_to_collection off) with
  | error e =>
    rw [hsubs, except_error_bind] at h
    exact Except.noConfusion h
  | ok subs =>
    rw [hsubs, except_ok_bind] at h
    injection h with h
    have hcat : c.catalog_links = get_main_catalog_links ++
        [⟨"child", "./" ++ ID_COLLECTION_ORTHO ++ "/collection.json",
          some MAIN_COLLECTION_TITLE⟩] := by rw [← h]
    have hortho : c.ortho_links = get_main_collection_links ++
        subs.map (fun sc =>
          (⟨"child", "./" ++ sc.1.id ++ "/collection.json", some sc.1.title⟩ : Link)) := by
      rw [← h]
    have hsubc : c.subcollections = subs := by rw [← h]
    have hz1 : List.countP ((fun l => l.rel == "root") ∘
        fun sc : SubCollection × List Item =>
          (⟨"child", "./" ++ sc.1.id ++ "/collection.json", some sc.1.title⟩ : Link))
        subs = 0 :=
      List.countP_eq_zero.mpr (fun sc _ => by
        show ¬ (("child" : String) == "root") = true
        decide)
    have hz2 : List.countP ((fun l => l.rel == "parent") ∘
        fun sc : SubCollection × List Item =>
          (⟨"child", "./" ++ sc.1.id ++ "/collection.json", some sc.1.title⟩ : Link))
        subs = 0 :=
      List.countP_eq_zero.mpr (fun sc _ => by
        show ¬ (("child" : String) == "parent") = true
        decide)
    have hall : List.filter ((fun l => l.rel == "child") ∘
        fun sc : SubCollection × List Item =>
          (⟨"child", "./" ++ sc.1.id ++ "/collection.json", some sc.1.title⟩ : Link))
        subs = subs :=
      List.filter_eq_self.mpr (fun sc _ => by
        show (("child" : String) == "child") = true
        decide)
    refine ⟨?_, ⟨?_, ?_, ?_⟩, ?_⟩
    · rw [hcat]
      refine ⟨by decide, by decide, by decide⟩
    · rw [hortho, List.countP_append, List.countP_map, hz1]
      decide
    · rw [hortho, List.countP_append, List.countP_map, hz2]
      decide
    · rw [hortho, hsubc, List.filter_append, List.filter_map, hall]
      rfl
    · intro sc hsc
      rw [hsubc] at hsc
      obtain ⟨gdf, _, hok⟩ := except_mapM_ok_mem (geoparquet_to_collection off)
        gdfs subs hsubs sc hsc
      obtain ⟨hitems, hlinks⟩ :=
        geoparquet_to_collection_shape off gdf sc.1 sc.2 (by rw [hok])
      obtain ⟨hc1, hc2, hc3⟩ := subcollection_links_counts sc.2
      rw [hlinks]
      refine ⟨hc1, hc2, hc3, ?_⟩
      rw [hitems]
      exact features_as_items_links gdf sc.1.id

/-- Witness for the amended C9: the theorem applied to the concrete
single-file input `[[feature_a]]`. -/
theorem C9_links_witness :
    (c9_value.catalog_links.countP (fun l => l.rel == "root") = 1 ∧
     c9_value.catalog_links.countP (fun l => l.rel == "parent") = 0 ∧
     c9_value.catalog_links.filter (fun l => l.rel == "child") =
       [⟨"child", "./" ++ ID_COLLECTION_ORTHO ++ "/collection.json",
         some MAIN_COLLECTION_TITLE⟩]) ∧
    (c9_value.ortho_links.countP (fun l => l.rel == "root") = 1 ∧
     c9_value.ortho_links.countP (fun l => l.rel == "parent") = 0 ∧
     c9_value.ortho_links.filter (fun l => l.rel == "child") =
       c9_value.subcollections.map (fun sc =>
         ⟨"child", "./" ++ sc.1.id ++ "/collection.json", some sc.1.title⟩)) ∧
    (∀ sc ∈ c9_value.subcollections,
      sc.1.links.countP (fun l => l.rel == "root") = 1 ∧
      sc.1.links.countP (fun l => l.rel == "parent") = 1 ∧
      sc.1.links.filter (fun l => l.rel == "item") =
        sc.2.map (fun i => ⟨"item", "./" ++ i.id ++ ".json", some i.title⟩) ∧
      ∀ it ∈ sc.2,
        it.links.countP (fun l => l.rel == "root") = 1 ∧
        it.links.countP (fun l => l.rel == "parent") = 1) :=
  C9_links const_offset [[feature_a]] c9_value (by decide)

/-- **C9 counterexample**: on a concrete successful run the main ortho
collection — a non-root node — carries *zero* parent links (while it does
carry its one root link), refuting "every non-root node carries exactly
one parent link". -/
theorem C9_counterexample :
    (convert_geoparquet_nodes const_offset [[feature_a]]).toOption.map
        (fun c => (c.ortho_links.countP (fun l => l.rel == "parent"),
                   c.ortho_links.countP (fun l => l.rel == "root"))) =
      some (0, 1) := by decide

/-! ### Parent temporal-extent assembly (claim C6) -/

set_option maxRecDepth 8000 in
/-- **C6** (code bug): evaluating the temporal-extent assembly on two
sub-collection extents shows what the code actually builds: each child
contributes only `interval[0]` — its *start string* (the end strings are
dropped) — and the prepended "covering interval" is the min/max over the
individual *characters* of those strings, `["+", "T"]`, not over interval
endpoints. -/
theorem C6_covering_interval_chars :
    ortho_temporal_assembly [c6_interval_a, c6_interval_b] =
      some [TemporalEntry.interval ["+", "T"],
            TemporalEntry.str "2020-05-31T22:00:00+00:00",
            TemporalEntry.str "2021-05-31T22:00:00+00:00"] := by decide

/-! ### Output-folder preparation (claim C10) -/

theorem fpath_le_self (p : FPath) : fpath_le p p = true := by
  simp [fpath_le, List.take_length]

theorem self_mem_fpath_ancestors (p : FPath) (hp : p ≠ []) : p ∈ fpath_ancestors p := by
  unfold fpath_ancestors
  refine List.mem_map.mpr ⟨p.length - 1, ?_, ?_⟩
  · refine List.mem_range.mpr ?_
    cases p with
    | nil => exact absurd rfl hp
    | cons a as => simp
  · have hlen : p.length - 1 + 1 = p.length := by
      cases p with
      | nil => exact absurd rfl hp
      | cons a as => simp
    rw [hlen, List.take_length]

/-- **C10**: if the output folder exists and is non-empty, preparation
removes the folder with all of its contents and recreates it empty,
touching nothing outside the folder; an existing empty folder is reused
unchanged; a missing folder is created together with its ancestors, with
everything else untouched. -/
theorem C10_prepare_output_dir (fs : FileSystem) (p : FPath) :
    (fs_exists fs p = true → fs_nonempty_dir fs p = true →
      p ∈ prepare_output_dir fs p ∧
      (∀ q ∈ prepare_output_dir fs p, fpath_le p q = true → q = p) ∧
      (∀ q : FPath, fpath_le p q = false →
        (q ∈ prepare_output_dir fs p ↔ q ∈ fs))) ∧
    (fs_exists fs p = true → fs_nonempty_dir fs p = false →
      prepare_output_dir fs p = fs) ∧
    (fs_exists fs p = false → p ≠ [] →
      p ∈ prepare_output_dir fs p ∧
      (∀ q ∈ fpath_ancestors p, q ∈ prepare_output_dir fs p) ∧
      (∀ q : FPath, q ∈ prepare_output_dir fs p ↔ q ∈ fs ∨ q ∈ fpath_ancestors p)) := by
  refine ⟨?_, ?_, ?_⟩
  · intro hex hne
    have hprep : prepare_output_dir fs p = fs_rmtree fs p ++ [p] := by
      simp only [prepare_output_dir, hex, hne, if_true]
      rfl
    rw [hprep]
    refine ⟨?_, ?_, ?_⟩
    · exact List.mem_append.mpr (Or.inr (List.mem_singleton.mpr rfl))
    · intro q hq hle
      cases List.mem_append.mp hq with
      | inl hmem =>
        obtain ⟨_, hkeep⟩ := List.mem_filter.mp hmem
        rw [hle] at hkeep
        exact Bool.noConfusion hkeep
      | inr hmem => exact List.mem_singleton.mp hmem
    · intro q hle
      constructor
      · intro hq
        cases List.mem_append.mp hq with
        | inl hmem => exact (List.mem_filter.mp hmem).1
        | inr hmem =>
          have : q = p := List.mem_singleton.mp hmem
          rw [this, fpath_le_self p] at hle
          exact Bool.noConfusion hle
      · intro hq
        refine List.mem_append.mpr (Or.inl (List.mem_filter.mpr ⟨hq, ?_⟩))
        rw [hle]
        rfl
  · intro hex hne
    simp only [prepare_output_dir, hex, hne, if_true]
    rfl
  · intro hex hp
    have hnotmem : p ∉ fs := of_decide_eq_false hex
    have hprep : prepare_output_dir fs p =
        fs ++ (fpath_ancestors p).filter (fun q => !(decide (q ∈ fs))) := by
      simp only [prepare_output_dir, hex, if_false]
      rfl
    rw [hprep]
    refine ⟨?_, ?_, ?_⟩
    · refine List.mem_append.mpr (Or.inr (List.mem_filter.mpr
        ⟨self_mem_fpath_ancestors p hp, ?_⟩))
      simp [hnotmem]
    · intro q hq
      by_cases hqfs : q ∈ fs
      · exact List.mem_append.mpr (Or.inl hqfs)
      · refine List.mem_append.mpr (Or.inr (List.mem_filter.mpr ⟨hq, ?_⟩))
        simp [hqfs]
    · intro q
      constructor
      · intro hq
        cases List.mem_append.mp hq with
        | inl hmem => exact Or.inl hmem
        | inr hmem => exact Or.inr (List.mem_filter.mp hmem).1
      · intro hq
        cases hq with
        | inl hmem => exact List.mem_append.mpr (Or.inl hmem)
        | inr hmem =>
          by_cases hqfs : q ∈ fs
          · exact List.mem_append.mpr (Or.inl hqfs)
          · refine List.mem_append.mpr (Or.inr (List.mem_filter.mpr ⟨hmem, ?_⟩))
            simp [hqfs]

/-- Witness for C10: an output folder `out` containing one entry. -/
theorem C10_prepare_output_dir_witness :
    ["out"] ∈ prepare_output_dir [["out"], ["out", "x"]] ["out"] ∧
    (∀ q ∈ prepare_output_dir [["out"], ["out", "x"]] ["out"],
      fpath_le ["out"] q = true → q = ["out"]) ∧
    (∀ q : FPath, fpath_le ["out"] q = false →
      (q ∈ prepare_output_dir [["out"], ["out", "x"]] ["out"] ↔
        q ∈ [["out"], ["out", "x"]])) :=
  (C10_prepare_output_dir [["out"], ["out", "x"]] ["out"]).1 (by decide) (by decide)

/-! ### The Concurrency-Bounded Dispatcher (claims C3 and C4) -/

theorem option_some_bind {α β : Type} (a : α) (f : α → Option β) :
    (some a >>= f) = f a := rfl

theorem option_none_bind {α β : Type} (f : α → Option β) :
    ((none : Option α) >>= f) = none := rfl

theorem option_mapM_all_some {α β : Type} (g : α → Option β) :
    ∀ (l : List α) (out : List β), l.mapM g = some out →
      ∀ a ∈ l, ∃ b, g a = some b := by
  intro l
  induction l with
  | nil => intro out h a ha; cases ha
  | cons x xs ih =>
    intro out h a ha
    rw [List.mapM_cons] at h
    cases hgx : g x with
    | none =>
      rw [hgx, option_none_bind] at h
      exact Option.noConfusion h
    | some y =>
      rw [hgx, option_some_bind] at h
      cases ha with
      | head => exact ⟨y, hgx⟩
      | tail _ hmem =>
        cases hxs : xs.mapM g with
        | none =>
          rw [hxs, option_none_bind] at h
          exact Option.noConfusion h
        | some ys => exact ih ys hxs a hmem

theorem option_mapM_map_eq {α β : Type} (g : α → Option β) (f : α → β) :
    ∀ (l : List α), (∀ a ∈ l, g a = some (f a)) → l.mapM g = some (l.map f) := by
  intro l
  induction l with
  | nil => intro _; rfl
  | cons x xs ih =>
    intro hl
    rw [List.mapM_cons, hl x (List.mem_cons_self x xs), option_some_bind,
      ih (fun a ha => hl a (List.mem_cons_of_mem x ha)), option_some_bind]
    rfl

theorem collect_ok_all_done {n : Nat} {E : Type} (phases : Fin n → Phase E)
    (rs : List String) (h : collect_ok phases = some rs) :
    ∀ i : Fin n, ∃ s : String, phases i = Phase.done (Except.ok s) := by
  intro i
  have hmem : phases i ∈ List.ofFn phases := by
    rw [List.mem_ofFn]
    exact Set.mem_range_self i
  obtain ⟨b, hb⟩ := option_mapM_all_some _ (List.ofFn phases) rs h (phases i) hmem
  cases hph : phases i with
  | waiting => rw [hph] at hb; exact Option.noConfusion hb
  | working m => rw [hph] at hb; exact Option.noConfusion hb
  | done r =>
    cases r with
    | ok s => exact ⟨s, rfl⟩
    | error e => rw [hph] at hb; exact Option.noConfusion hb

theorem collect_ok_eq {n : Nat} {E : Type} (folder : String) (layers : Fin n → String)
    (body : Fin n → Except E Unit) (phases : Fin n → Phase E)
    (hdone : ∀ (i : Fin n) (r : Except E String),
      phases i = Phase.done r → r = worker_result folder (layers i) (body i))
    (rs : List String) (h : collect_ok phases = some rs) :
    rs = List.ofFn (fun i => worker_file_path folder (layers i)) := by
  have hall := collect_ok_all_done phases rs h
  have hphases : ∀ i : Fin n,
      phases i = Phase.done (Except.ok (worker_file_path folder (layers i))) := by
    intro i
    obtain ⟨s, hs⟩ := hall i
    have hres := hdone i (Except.ok s) hs
    cases hbody : body i with
    | ok u =>
      rw [hbody] at hres
      injection hres with hs'
      rw [hs'] at hs
      exact hs
    | error e =>
      rw [hbody] at hres
      exact Except.noConfusion hres
  have hfun : phases = fun i => Phase.done (Except.ok (worker_file_path folder (layers i))) :=
    funext hphases
  rw [hfun] at h
  have hcomp : collect_ok (E := E)
      (fun i => Phase.done (Except.ok (worker_file_path folder (layers i)))) =
      some (List.ofFn (fun i => worker_file_path folder (layers i))) := by
    unfold collect_ok
    rw [option_mapM_map_eq _ (fun ph =>
      match ph with
      | Phase.done (Except.ok s) => s
      | _ => "") _ ?_]
    · rw [List.map_ofFn]
      rfl
    · intro a ha
      obtain ⟨i, hi⟩ := Set.mem_range.mp ((List.mem_ofFn _ _).mp ha)
      rw [← hi]
  rw [hcomp] at h
  injection h with h
  exact h.symm

theorem sum_phase_update {n : Nat} {E : Type} (w : Fin n → Phase E → Nat)
    (f : Fin n → Phase E) (i : Fin n) (v : Phase E) :
    (∑ j : Fin n, w j (Function.update f i v j)) + w i (f i) =
      (∑ j : Fin n, w j (f j)) + w i v := by
  have h1 : (∑ j : Fin n, w j (Function.update f i v j)) =
      w i v + ∑ j ∈ Finset.univ.erase i, w j (f j) := by
    rw [← Finset.add_sum_erase Finset.univ (fun j => w j (Function.update f i v j))
      (Finset.mem_univ i), Function.update_same]
    congr 1
    refine Finset.sum_congr rfl ?_
    intro j hj
    rw [Function.update_noteq (Finset.mem_erase.mp hj).1]
  have h2 : (∑ j : Fin n, w j (f j)) =
      w i (f i) + ∑ j ∈ Finset.univ.erase i, w j (f j) :=
    (Finset.add_sum_erase Finset.univ (fun j => w j (f j)) (Finset.mem_univ i)).symm
  omega

theorem working_count_set {n : Nat} {E : Type} (s : DispatchState n E) (i : Fin n)
    (v : Phase E) (sem' : Nat) (fe : Option E) (res : Option (Except E (List String))) :
    working_count (⟨sem', Function.update s.phases i v, fe, res⟩ : DispatchState n E) +
      (if phase_is_working (s.phases i) then 1 else 0) =
    working_count s + (if phase_is_working v then 1 else 0) := by
  have h := sum_phase_update (fun _ ph => if phase_is_working ph then 1 else 0)
    s.phases i v
  simpa [working_count] using h

theorem remaining_work_set {n : Nat} {E : Type} (job : Fin n → Nat)
    (s : DispatchState n E) (i : Fin n) (v : Phase E) (sem' : Nat) (fe : Option E)
    (res : Option (Except E (List String))) :
    remaining_work job (⟨sem', Function.update s.phases i v, fe, res⟩ : DispatchState n E) +
      phase_weight (job i) (s.phases i) =
    remaining_work job s + phase_weight (job i) v := by
  have h := sum_phase_update (fun j ph => phase_weight (job j) ph) s.phases i v
  simpa [remaining_work] using h

theorem merge_first_error_some {E : Type} (e0 : E) (b : Except E Unit) :
    merge_first_error (some e0) b = some e0 := by
  cases b with
  | ok u => rfl
  | error e => rfl

theorem merge_first_error_none_ok {E : Type} (u : Unit) :
    merge_first_error (E := E) none (Except.ok u) = none := rfl

theorem merge_first_error_none_error {E : Type} (e : E) :
    merge_first_error none (Except.error e) = some e := rfl

theorem dispatch_inv_init {n : Nat} {E : Type} (folder : String)
    (layers : Fin n → String) (body : Fin n → Except E Unit) (k : Nat) :
    DispatchInv folder layers body k (dispatch_init n E k) := by
  refine ⟨?_, ?_, ?_, ?_, ?_⟩
  · have hz : working_count (dispatch_init n E k) = 0 := by
      simp [working_count, dispatch_init, phase_is_working]
    show k + working_count (dispatch_init n E k) = k
    omega
  · intro i r hdone
    exact Phase.noConfusion hdone
  · intro e he
    exact Option.noConfusion he
  · intro e he
    exact Option.noConfusion he
  · intro rs hrs
    exact Option.noConfusion hrs

theorem dispatch_inv_step {n : Nat} {E : Type} {folder : String}
    {layers : Fin n → String} {job : Fin n → Nat} {body : Fin n → Except E Unit}
    {k : Nat} {s s' : DispatchState n E}
    (hinv : DispatchInv folder layers body k s)
    (hstep : DispatchStep folder layers job body s s') :
    DispatchInv folder layers body k s' := by
  obtain ⟨h1, h2, h3, h4, h5⟩ := hinv
  cases hstep with
  | acquire i hw hs =>
    refine ⟨?_, ?_, ?_, ?_, ?_⟩
    · have hupd := working_count_set s i (Phase.working (job i)) (s.sem - 1)
        s.firstError s.result
      rw [hw] at hupd
      simp [phase_is_working] at hupd
      show s.sem - 1 + _ = k
      omega
    · intro j r hj
      by_cases hji : j = i
      · subst hji
        rw [show (⟨s.sem - 1, Function.update s.phases j (Phase.working (job j)),
            s.firstError, s.result⟩ : DispatchState n E).phases j =
            Phase.working (job j) from Function.update_same j _ s.phases] at hj
        exact Phase.noConfusion hj
      · rw [show (⟨s.sem - 1, Function.update s.phases i (Phase.working (job i)),
            s.firstError, s.result⟩ : DispatchState n E).phases j = s.phases j from
            Function.update_noteq hji _ s.phases] at hj
        exact h2 j r hj
    · intro e he
      obtain ⟨i₀, hph, hb⟩ := h3 e he
      have hne : i₀ ≠ i := by
        intro heq
        rw [heq, hw] at hph
        exact Phase.noConfusion hph
      refine ⟨i₀, ?_, hb⟩
      show Function.update s.phases i (Phase.working (job i)) i₀ = _
      rw [Function.update_noteq hne]
      exact hph
    · intro e he
      exact h4 e he
    · intro rs hrs
      exfalso
      obtain ⟨si, hsi⟩ := collect_ok_all_done s.phases rs (h5 rs hrs) i
      rw [hw] at hsi
      exact Phase.noConfusion hsi
  | work i m hw =>
    refine ⟨?_, ?_, ?_, ?_, ?_⟩
    · have hupd := working_count_set s i (Phase.working m) s.sem s.firstError s.result
      rw [hw] at hupd
      simp [phase_is_working] at hupd
      show s.sem + _ = k
      omega
    · intro j r hj
      by_cases hji : j = i
      · subst hji
        rw [show (⟨s.sem, Function.update s.phases j (Phase.working m),
            s.firstError, s.result⟩ : DispatchState n E).phases j =
            Phase.working m from Function.update_same j _ s.phases] at hj
        exact Phase.noConfusion hj
      · rw [show (⟨s.sem, Function.update s.phases i (Phase.working m),
            s.firstError, s.result⟩ : DispatchState n E).phases j = s.phases j from
            Function.update_noteq hji _ s.phases] at hj
        exact h2 j r hj
    · intro e he
      obtain ⟨i₀, hph, hb⟩ := h3 e he
      have hne : i₀ ≠ i := by
        intro heq
        rw [heq, hw] at hph
        exact Phase.noConfusion hph
      refine ⟨i₀, ?_, hb⟩
      show Function.update s.phases i (Phase.working m) i₀ = _
      rw [Function.update_noteq hne]
      exact hph
    · intro e he
      exact h4 e he
    · intro rs hrs
      exfalso
      obtain ⟨si, hsi⟩ := collect_ok_all_done s.phases rs (h5 rs hrs) i
      rw [hw] at hsi
      exact Phase.noConfusion hsi
  | finish i hw =>
    refine ⟨?_, ?_, ?_, ?_, ?_⟩
    · have hupd := working_count_set s i
        (Phase.done (worker_result folder (layers i) (body i))) (s.sem + 1)
        (merge_first_error s.firstError (body i)) s.result
      rw [hw] at hupd
      simp [phase_is_working] at hupd
      show s.sem + 1 + _ = k
      omega
    · intro j r hj
      by_cases hji : j = i
      · subst hji
        rw [show (⟨s.sem + 1, Function.update s.phases j
            (Phase.done (worker_result folder (layers j) (body j))),
            merge_first_error s.firstError (body j), s.result⟩ :
            DispatchState n E).phases j =
            Phase.done (worker_result folder (layers j) (body j)) from
            Function.update_same j _ s.phases] at hj
        injection hj with hj
        exact hj.symm
      · rw [show (⟨s.sem + 1, Function.update s.phases i
            (Phase.done (worker_result folder (layers i) (body i))),
            merge_first_error s.firstError (body i), s.result⟩ :
            DispatchState n E).phases j = s.phases j from
            Function.update_noteq hji _ s.phases] at hj
        exact h2 j r hj
    · intro e he
      have he' : merge_first_error s.firstError (body i) = some e := he
      cases hfe : s.firstError with
      | some e0 =>
        rw [hfe, merge_first_error_some] at he'
        injection he' with h'
        subst h'
        obtain ⟨i₀, hph, hb⟩ := h3 e0 hfe
        have hne : i₀ ≠ i := by
          intro heq
          rw [heq, hw] at hph
          exact Phase.noConfusion hph
        refine ⟨i₀, ?_, hb⟩
        show Function.update s.phases i _ i₀ = _
        rw [Function.update_noteq hne]
        exact hph
      | none =>
        rw [hfe] at he'
        cases hbody : body i with
        | ok u =>
          rw [hbody, merge_first_error_none_ok] at he'
          exact Option.noConfusion he'
        | error e1 =>
          rw [hbody, merge_first_error_none_error] at he'
          injection he' with h'
          subst h'
          refine ⟨i, ?_, hbody⟩
          show Function.update s.phases i
            (Phase.done (worker_result folder (layers i) (Except.error e1))) i = _
          rw [Function.update_same]
          rfl
    · intro e he
      have hfe := h4 e he
      show merge_first_error s.firstError (body i) = some e
      rw [hfe, merge_first_error_some]
    · intro rs hrs
      exfalso
      obtain ⟨si, hsi⟩ := collect_ok_all_done s.phases rs (h5 rs hrs) i
      rw [hw] at hsi
      exact Phase.noConfusion hsi
  | gatherFail e hr he =>
    refine ⟨h1, h2, h3, ?_, ?_⟩
    · intro e' he'
      have : Except.error (ε := E) (α := List String) e = Except.error e' := by
        injection he'
      injection this with this
      subst this
      exact he
    · intro rs hrs
      have : Except.error (ε := E) (α := List String) e = Except.ok rs := by
        injection hrs
      exact Except.noConfusion this
  | gatherOk rs hr hc =>
    refine ⟨h1, h2, h3, ?_, ?_⟩
    · intro e' he'
      have : Except.ok (ε := E) rs = Except.error e' := by
        injection he'
      exact Except.noConfusion this
    · intro rs' hrs'
      have : Except.ok (ε := E) rs = Except.ok rs' := by
        injection hrs'
      injection this with this
      rw [← this]
      exact hc

theorem dispatch_inv_reaches {n : Nat} {E : Type} (folder : String)
    (layers : Fin n → String) (job : Fin n → Nat) (body : Fin n → Except E Unit)
    (k : Nat) (s : DispatchState n E)
    (h : Relation.ReflTransGen (DispatchStep folder layers job body)
      (dispatch_init n E k) s) :
    DispatchInv folder layers body k s := by
  induction h with
  | refl => exact dispatch_inv_init folder layers body k
  | tail hr hstep ih => exact dispatch_inv_step ih hstep

/-- **C3**: for every schedule of the dispatcher's transition system with
`max_workers = k ≥ 1`, at no reachable state do more than `k` worker
invocations execute simultaneously, and whenever gather delivers a success
result it is the list of the workers' results in input order (position `i`
holds worker `i`'s file path), regardless of completion order. -/
theorem C3_dispatcher_bound_and_order {n : Nat} {E : Type} (folder : String)
    (layers : Fin n → String) (job : Fin n → Nat) (body : Fin n → Except E Unit)
    (k : Nat) (_hk : 1 ≤ k) (s : DispatchState n E)
    (h : Relation.ReflTransGen (DispatchStep folder layers job body)
      (dispatch_init n E k) s) :
    working_count s ≤ k ∧
    (∀ rs : List String, s.result = some (Except.ok rs) →
      rs = List.ofFn (fun i => worker_file_path folder (layers i))) := by
  obtain ⟨h1, h2, h3, h4, h5⟩ := dispatch_inv_reaches folder layers job body k s h
  exact ⟨by omega, fun rs hrs => collect_ok_eq folder layers body s.phases h2 rs (h5 rs hrs)⟩

/-- Witness for C3: the theorem applied to the initial state of a
one-layer dispatch with `max_workers = 1`. -/
theorem C3_dispatcher_bound_and_order_witness :
    working_count (dispatch_init 1 String 1) ≤ 1 ∧
    (∀ rs : List String, (dispatch_init 1 String 1).result = some (Except.ok rs) →
      rs = List.ofFn (fun i => worker_file_path "out" (c3_layers i))) :=
  C3_dispatcher_bound_and_order "out" c3_layers c3_job c3_body 1 (by decide)
    (dispatch_init 1 String 1) Relation.ReflTransGen.refl

theorem dispatch_progress_working {n : Nat} {E : Type} (folder : String)
    (layers : Fin n → String) (job : Fin n → Nat) (body : Fin n → Except E Unit)
    (s : DispatchState n E) (j : Fin n) (m : Nat)
    (hph : s.phases j = Phase.working m) :
    ∃ s', DispatchStep folder layers job body s s' ∧
      remaining_work job s' + 1 ≤ remaining_work job s := by
  cases m with
  | zero =>
    refine ⟨_, DispatchStep.finish s j hph, ?_⟩
    have hset := remaining_work_set job s j
      (Phase.done (worker_result folder (layers j) (body j))) (s.sem + 1)
      (merge_first_error s.firstError (body j)) s.result
    rw [hph] at hset
    simp only [phase_weight] at hset
    omega
  | succ m' =>
    refine ⟨_, DispatchStep.work s j m' hph, ?_⟩
    have hset := remaining_work_set job s j (Phase.working m') s.sem
      s.firstError s.result
    rw [hph] at hset
    simp only [phase_weight] at hset
    omega

theorem dispatch_progress_waiting {n : Nat} {E : Type} (folder : String)
    (layers : Fin n → String) (job : Fin n → Nat) (body : Fin n → Except E Unit)
    (s : DispatchState n E) (i : Fin n)
    (hph : s.phases i = Phase.waiting) (hs : 0 < s.sem) :
    ∃ s', DispatchStep folder layers job body s s' ∧
      remaining_work job s' + 1 ≤ remaining_work job s := by
  refine ⟨_, DispatchStep.acquire s i hph hs, ?_⟩
  have hset := remaining_work_set job s i (Phase.working (job i)) (s.sem - 1)
    s.firstError s.result
  rw [hph] at hset
  simp only [phase_weight] at hset
  omega

theorem dispatch_can_finish {n : Nat} {E : Type} (folder : String)
    (layers : Fin n → String) (job : Fin n → Nat) (body : Fin n → Except E Unit)
    (k : Nat) (hk : 1 ≤ k) :
    ∀ (N : Nat) (s : DispatchState n E), remaining_work job s ≤ N →
      DispatchInv folder layers body k s →
      ∃ s', Relation.ReflTransGen (DispatchStep folder layers job body) s s' ∧
        ∀ i : Fin n, ∃ r, s'.phases i = Phase.done r := by
  intro N
  induction N with
  | zero =>
    intro s hr hinv
    refine ⟨s, Relation.ReflTransGen.refl, ?_⟩
    intro i
    have hz : phase_weight (job i) (s.phases i) = 0 := by
      have hsum : remaining_work job s = 0 := Nat.le_zero.mp hr
      unfold remaining_work at hsum
      exact Finset.sum_eq_zero_iff.mp hsum i (Finset.mem_univ i)
    cases hph : s.phases i with
    | waiting => rw [hph] at hz; simp [phase_weight] at hz
    | working m => rw [hph] at hz; simp [phase_weight] at hz
    | done r => exact ⟨r, rfl⟩
  | succ N ih =>
    intro s hr hinv
    by_cases hall : ∀ i : Fin n, ∃ r, s.phases i = Phase.done r
    · exact ⟨s, Relation.ReflTransGen.refl, hall⟩
    · push_neg at hall
      obtain ⟨i, hi⟩ := hall
      have hprog : ∃ s', DispatchStep folder layers job body s s' ∧
          remaining_work job s' + 1 ≤ remaining_work job s := by
        cases hph : s.phases i with
        | done r => exact absurd hph (hi r)
        | working m => exact dispatch_progress_working folder layers job body s i m hph
        | waiting =>
          cases hsem : s.sem with
          | succ sem' =>
            exact dispatch_progress_waiting folder layers job body s i hph (by omega)
          | zero =>
            have hwc : working_count s = k := by
              have hh := hinv.1
              omega
            have hex : ∃ j : Fin n, phase_is_working (s.phases j) = true := by
              by_contra hno
              push_neg at hno
              have hz : working_count s = 0 := by
                unfold working_count
                refine Finset.sum_eq_zero ?_
                intro j _
                rw [Bool.not_eq_true (phase_is_working (s.phases j)) |>.mp (hno j)]
                rfl
              omega
            obtain ⟨j, hj⟩ := hex
            cases hphj : s.phases j with
            | waiting => rw [hphj] at hj; simp [phase_is_working] at hj
            | done r => rw [hphj] at hj; simp [phase_is_working] at hj
            | working m =>
              exact dispatch_progress_working folder layers job body s j m hphj
      obtain ⟨s'', hstep, hless⟩ := hprog
      obtain ⟨s', hreach, hdone⟩ := ih s'' (by omega) (dispatch_inv_step hinv hstep)
      exact ⟨s', Relation.ReflTransGen.head hstep hreach, hdone⟩

/-- **C4 amended**: from any reachable state of the dispatcher, (a) a
delivered failure result is the recorded first exception of a worker that
has *completed* with that exception (`asyncio.gather` propagates the first
raised exception as soon as that worker finishes, not only after all
outstanding work completes), with any successful results discarded; and
(b) no sibling is ever cancelled: every task can still be run to
completion by some continuation of the schedule. -/
theorem C4_dispatcher_failure {n : Nat} {E : Type} (folder : String)
    (layers : Fin n → String) (job : Fin n → Nat) (body : Fin n → Except E Unit)
    (k : Nat) (hk : 1 ≤ k) (s : DispatchState n E)
    (h : Relation.ReflTransGen (DispatchStep folder layers job body)
      (dispatch_init n E k) s) :
    (∀ e : E, s.result = some (Except.error e) →
      ∃ i : Fin n, s.phases i = Phase.done (Except.error e) ∧
        body i = Except.error e) ∧
    (∃ s', Relation.ReflTransGen (DispatchStep folder layers job body) s s' ∧
      ∀ i : Fin n, ∃ r, s'.phases i = Phase.done r) := by
  have hinv := dispatch_inv_reaches folder layers job body k s h
  refine ⟨fun e he => hinv.2.2.1 e (hinv.2.2.2.1 e he), ?_⟩
  exact dispatch_can_finish folder layers job body k hk (remaining_work job s) s
    le_rfl hinv

/-- Witness for the amended C4: the theorem applied to the initial state
of a one-layer dispatch. -/
theorem C4_dispatcher_failure_witness :
    (∀ e : String, (dispatch_init 1 String 1).result = some (Except.error e) →
      ∃ i : Fin 1, (dispatch_init 1 String 1).phases i = Phase.done (Except.error e) ∧
        c3_body i = Except.error e) ∧
    (∃ s', Relation.ReflTransGen (DispatchStep "out" c3_layers c3_job c3_body)
        (dispatch_init 1 String 1) s' ∧
      ∀ i : Fin 1, ∃ r, s'.phases i = Phase.done r) :=
  C4_dispatcher_failure "out" c3_layers c3_job c3_body 1 (by decide)
    (dispatch_init 1 String 1) Relation.ReflTransGen.refl

/-- **C4 counterexample**: a concrete schedule of a two-worker dispatch in
which worker 0 fails and gather delivers the failure while worker 1 has
not even started — the overall call fails *before* all outstanding work
completes, refuting "the overall call fails only once all outstanding work
completes". -/
theorem C4_counterexample :
    Relation.ReflTransGen (DispatchStep "out" c4_layers c4_job c4_body)
        (dispatch_init 2 String 2) c4_final ∧
    c4_final.result = some (Except.error "boom") ∧
    c4_final.phases 1 = Phase.waiting := by
  refine ⟨?_, rfl, ?_⟩
  · refine Relation.ReflTransGen.head
      (DispatchStep.acquire (dispatch_init 2 String 2) 0 rfl (by decide)) ?_
    refine Relation.ReflTransGen.head (DispatchStep.finish _ 0 ?_) ?_
    · show Function.update (fun _ => Phase.waiting) 0 (Phase.working (c4_job 0)) 0 =
        Phase.working 0
      rw [Function.update_same]
      rfl
    · refine Relation.ReflTransGen.head (DispatchStep.gatherFail _ "boom" rfl ?_) ?_
      · show merge_first_error none (c4_body 0) = some "boom"
        rfl
      · exact Relation.ReflTransGen.refl
  · show Function.update (Function.update (fun _ => Phase.waiting) 0 (Phase.working 0)) 0
      (Phase.done (Except.error "boom")) 1 = Phase.waiting
    rw [Function.update_noteq (by decide), Function.update_noteq (by decide)]

end GgkStac
